import Mathlib

/-!
Shallow embedding of the streaming HDF5 raster-processing core found in
src/main.rs: the chunked row reverser (`rev_array`, `reverse_ds_rows`),
the running-stats reducer (`calc_mean_sd`), and the skip-if-exists guard.

The HDF5 file is modelled as an association list from dataset paths to
flat element lists.  Element types are kept generic: the reverser in the
Rust source is generic over the element type, and the stats reducer is
modelled over an abstract carrier equipped with the 32-bit float
operations it uses (`CellOps`), so every theorem about values that does
not depend on rounding holds for every interpretation of the operations.
Fallible store operations return `Option`; a Rust `unwrap` panic is
modelled as the pair `(state-so-far, false)`, a completed run as
`(state, true)`.  Write I/O failures are modelled by an oracle `wok`
telling which writes the store accepts, so that the difference between
`unwrap`ped writes (reverser) and discarded write results
(`let _ = ...` in `calc_mean_sd`) is observable.
-/

/-- Model of an HDF5 file: paths bound to flat datasets. -/
abbrev HFile (α : Type) := List (String × List α)

/-- Dataset lookup by path (the `file.dataset(name)` open). -/
def dsLookup (file : HFile α) (name : String) : Option (List α) :=
  match file with
  | [] => none
  | (k, v) :: t => if k = name then some v else dsLookup t name

/-- Model of `file.link_exists(name)`. -/
def link_exists (file : HFile α) (name : String) : Bool :=
  (dsLookup file name).isSome

/-- Replace the binding of `name` (or append it if absent). -/
def store_write (file : HFile α) (name : String) (v : List α) : HFile α :=
  match file with
  | [] => [(name, v)]
  | (k, w) :: t => if k = name then (name, v) :: t else (k, w) :: store_write t name v

/-- Model of `create_dataset`: fails (unwrap panic) if the path exists,
otherwise binds `name` to a fresh dataset of `size` elements holding the
HDF5 default fill value `fill`. -/
def create_ds (file : HFile α) (name : String) (size : Nat) (fill : α) :
    Option (HFile α) :=
  if link_exists file name then none
  else some (store_write file name (List.replicate size fill))

/-- Model of `read_slice_1d` on the half-open range `[lo, hi)`:
fails when the range does not fit in the dataset. -/
def readSlice (ds : List α) (lo hi : Nat) : Option (List α) :=
  if hi ≤ ds.length ∧ lo ≤ hi then some ((ds.drop lo).take (hi - lo)) else none

/-- Overwrite `out[start..start+vals.length)` with `vals`. -/
def writeSlice (out : List α) (start : Nat) (vals : List α) : List α :=
  out.take start ++ vals ++ out.drop (start + vals.length)

/-- Model of `write_slice` guarded by the I/O oracle `wok`
(which writes the underlying store accepts): fails on a rejected
write or an out-of-range window. -/
def dsWrite (wok : Bool) (out : List α) (start : Nat) (vals : List α) :
    Option (List α) :=
  if wok ∧ start + vals.length ≤ out.length then some (writeSlice out start vals)
  else none

/-- Row-major reshape of `xs` into `n` rows of `ncols` elements
(the `into_shape((nrows, ncols))` view, as the list of its rows). -/
def toRows (ncols : Nat) : Nat → List α → List (List α)
  | 0, _ => []
  | n + 1, xs => xs.take ncols :: toRows ncols n (xs.drop ncols)

/-- Model of `rev_array` (src/main.rs lines 64-73): reshape the flat
input to `(nrows, ncols)` — the `.unwrap()` panics unless the length
matches exactly — reverse the row order (`s![..;-1, ..]`) and flatten
back in row-major order. -/
def rev_array (input : List α) (nrows ncols : Nat) : Option (List α) :=
  if input.length = nrows * ncols then
    some ((toRows ncols nrows input).reverse).flatten
  else none

/-- Rows processed in one iteration (src/main.rs lines 99-103):
the batch size `B`, clipped at `half` on the last iteration. -/
def lines_to_read (B half yy : Nat) : Nat :=
  if yy + B > half then half - yy else B

/-- Forward chunk window, in flat element indices
(src/main.rs lines 106-107): `[yy*xsize, yy*xsize + rows*xsize)`. -/
def fwdWin (xsize yy rows : Nat) : Nat × Nat :=
  (yy * xsize, yy * xsize + rows * xsize)

/-- Mirror chunk window (src/main.rs lines 105, 108-109): starts at row
`rev_yy = ysize - yy - 1 - rows`. -/
def revWin (xsize ysize yy rows : Nat) : Nat × Nat :=
  ((ysize - yy - 1 - rows) * xsize, (ysize - yy - 1 - rows) * xsize + rows * xsize)

/-- Model of Rust's `str::ends_with` (src/main.rs line 81), expressed
over the character list of the string. -/
def ends_with (s suffix : String) : Bool :=
  suffix.data.isSuffixOf s.data

/-- Body of the reversal loop (src/main.rs lines 94-127), acting on the
output dataset `out`.  `fuel` bounds the recursion; callers pass enough
fuel that it never runs out when the step is positive.  Each iteration
reads the forward and mirror windows from the input `ds`, row-reverses
both batches, and cross-writes them; `ysize - yy - 1 - rows` is a usize
subtraction, so an underflow (only possible when `ysize = 1`) panics.
Both writes are `unwrap`ped, so a rejected write panics. -/
def revLoop (wok : Nat → Bool) (ds : List α) (xsize ysize half B : Nat) :
    Nat → Nat → List α → List α × Bool
  | 0, yy, out => if yy < half then (out, false) else (out, true)
  | fuel + 1, yy, out =>
    if yy < half then
      let rows := lines_to_read B half yy
      if ysize < yy + 1 + rows then (out, false)
      else
        match readSlice ds (fwdWin xsize yy rows).1 (fwdWin xsize yy rows).2 with
        | none => (out, false)
        | some vals =>
          match rev_array vals rows xsize with
          | none => (out, false)
          | some vals_final =>
            match readSlice ds (revWin xsize ysize yy rows).1 (revWin xsize ysize yy rows).2 with
            | none => (out, false)
            | some rev_vals =>
              match rev_array rev_vals rows xsize with
              | none => (out, false)
              | some rev_vals_final =>
                match dsWrite (wok (fwdWin xsize yy rows).1) out (fwdWin xsize yy rows).1 rev_vals_final with
                | none => (out, false)
                | some out1 =>
                  match dsWrite (wok (revWin xsize ysize yy rows).1) out1 (revWin xsize ysize yy rows).1 vals_final with
                  | none => (out1, false)
                  | some out2 => revLoop wok ds xsize ysize half B fuel (yy + B) out2
    else (out, true)

/-- Model of `reverse_ds_rows` (src/main.rs lines 75-129).  `wok` is the
write-acceptance oracle of the store (keyed by output path and start
index), `fill` the HDF5 default fill value of a freshly created dataset,
`B` the row batch size (`n_lines_read`, hard-coded to 100 in the
source).  `half` is `ceil(ysize/2)` — the source computes it through
`f32`, which agrees with `(ysize+1)/2` for every `ysize < 2^24`.
A zero step makes Rust's `step_by` panic before the first iteration. -/
def reverse_ds_rows (wok : String → Nat → Bool) (fill : α) (file : HFile α)
    (base_ds : String) (xsize ysize B : Nat) : HFile α × Bool :=
  if ends_with base_ds "_rev" then (file, true)
  else
    let ds_name_rev := base_ds ++ "_rev"
    if link_exists file ds_name_rev then (file, true)
    else
      match dsLookup file base_ds with
      | none => (file, false)
      | some ds =>
        match create_ds file ds_name_rev ds.length fill with
        | none => (file, false)
        | some file0 =>
          let half := (ysize + 1) / 2
          if B = 0 then (file0, false)
          else
            let r := revLoop (wok ds_name_rev) ds xsize ysize half B half 0
              (List.replicate ds.length fill)
            (store_write file0 ds_name_rev r.1, r.2)

/-- Abstract interface to the cell-level operations `calc_mean_sd`
performs on 32-bit floats and 8-bit counts: `isZero` is the `el == 0`
test on the stored count value, `toF` the `el as f32` conversion,
`fdiv`/`fsub`/`pow2`/`fsqrt` the f32 arithmetic, `one` the literal
`1f32` and `negOne` the sentinel `-1f32`. -/
structure CellOps (α : Type) where
  isZero : α → Bool
  toF : α → α
  fdiv : α → α → α
  fsub : α → α → α
  pow2 : α → α
  fsqrt : α → α
  one : α
  negOne : α

/-- Elementwise mean of one batch (src/main.rs line 174):
`&sum_vals / &count_vals` after the `as f32` conversion. -/
def batchMean (ops : CellOps α) (s cnt : List α) : List α :=
  List.zipWith ops.fdiv s (cnt.map ops.toF)

/-- Elementwise sample variance of one batch (src/main.rs lines 175-176):
`(sumsq - sum^2 / count) / (count - 1)`. -/
def batchVariance (ops : CellOps α) (s sq cnt : List α) : List α :=
  List.zipWith ops.fdiv
    (List.zipWith ops.fsub sq (List.zipWith ops.fdiv (s.map ops.pow2) (cnt.map ops.toF)))
    ((cnt.map ops.toF).map (fun c => ops.fsub c ops.one))

/-- Elementwise standard deviation of one batch with the zero-count
sentinel applied (src/main.rs lines 171, 177-181): the mask is taken
from the raw count values before any conversion, `sd = sqrt(variance)`,
then masked cells are overwritten with `-1f32`. -/
def batchSd (ops : CellOps α) (s sq cnt : List α) : List α :=
  List.zipWith (fun x m => if m then ops.negOne else x)
    ((batchVariance ops s sq cnt).map ops.fsqrt)
    (cnt.map ops.isZero)

/-- Write into the dataset bound at `name`, under the oracle `wok`;
fails when the path is missing, the window is out of range, or the
store rejects the write. -/
def fileWrite (wok : Bool) (file : HFile α) (name : String) (start : Nat)
    (vals : List α) : Option (HFile α) :=
  match dsLookup file name with
  | none => none
  | some ds =>
    match dsWrite wok ds start vals with
    | none => none
    | some ds' => some (store_write file name ds')

/-- Body of the stats loop (src/main.rs lines 157-185).  Each batch
reads `[ii, ii+n)` from the three accumulator datasets (captured at
open; they are never written, so handle reads equal snapshot reads),
computes mean and sd, and writes both results — the Rust source
discards the write results (`let _ = ...`), so a failed write leaves
the output dataset untouched and the loop continues. -/
def calcLoop (ops : CellOps α) (wok : String → Nat → Bool)
    (mean_path sd_path : String) (sumL sumsqL countL : List α)
    (max_size chunk_size : Nat) : Nat → Nat → HFile α → HFile α × Bool
  | 0, ii, file => if ii < max_size then (file, false) else (file, true)
  | fuel + 1, ii, file =>
    if ii < max_size then
      let n := if ii + chunk_size > max_size then max_size - ii else chunk_size
      match readSlice sumL ii (ii + n) with
      | none => (file, false)
      | some s =>
        match readSlice sumsqL ii (ii + n) with
        | none => (file, false)
        | some sq =>
          match readSlice countL ii (ii + n) with
          | none => (file, false)
          | some cnt =>
            let file1 := match fileWrite (wok mean_path ii) file mean_path ii
                (batchMean ops s cnt) with
              | some f => f
              | none => file
            let file2 := match fileWrite (wok sd_path ii) file1 sd_path ii
                (batchSd ops s sq cnt) with
              | some f => f
              | none => file1
            calcLoop ops wok mean_path sd_path sumL sumsqL countL max_size
              chunk_size fuel (ii + chunk_size) file2
    else (file, true)

/-- Model of `calc_mean_sd` (src/main.rs lines 139-186).  Opens the
three `_rev` accumulators of `group_name` (each `unwrap`ped), sizes
everything from the sum dataset alone, creates the two f32 outputs
(default fill `fill`), and folds `calcLoop` over the batches.  A zero
chunk size makes `step_by` panic before the first iteration. -/
def calc_mean_sd (ops : CellOps α) (wok : String → Nat → Bool) (fill : α)
    (file : HFile α) (group_name : String) (chunk_size : Nat) : HFile α × Bool :=
  let sum_path := "/" ++ group_name ++ "/sum_rev"
  let sumsq_path := "/" ++ group_name ++ "/sumsq_rev"
  let count_path := "/" ++ group_name ++ "/count_rev"
  let mean_path_out := "/" ++ group_name ++ "/mean_rev"
  let sd_path_out := "/" ++ group_name ++ "/sd_rev"
  if link_exists file mean_path_out then (file, true)
  else
    match dsLookup file sum_path with
    | none => (file, false)
    | some sumL =>
      match dsLookup file sumsq_path with
      | none => (file, false)
      | some sumsqL =>
        match dsLookup file count_path with
        | none => (file, false)
        | some countL =>
          let max_size := sumL.length
          match create_ds file mean_path_out max_size fill with
          | none => (file, false)
          | some f1 =>
            match create_ds f1 sd_path_out max_size fill with
            | none => (f1, false)
            | some f2 =>
              if chunk_size = 0 then (f2, false)
              else
                calcLoop ops wok mean_path_out sd_path_out sumL sumsqL countL
                  max_size chunk_size max_size 0 f2

/-- The all-accepting write oracle: the store rejects no write. -/
def wok_all : String → Nat → Bool := fun _ _ => true

/-- Value `calc_mean_sd` computes for the mean output at flat index `i`
(derived form used in specifications; `fill` is irrelevant in range). -/
def meanSpec (ops : CellOps α) (fill : α) (sumL countL : List α) (i : Nat) : α :=
  ops.fdiv ((sumL[i]?).getD fill) (ops.toF ((countL[i]?).getD fill))

/-- Value `calc_mean_sd` computes for the sd output at flat index `i`:
the sentinel `-1` where the raw count is zero, and otherwise
`sqrt((sumsq - sum^2/count) / (count - 1))`. -/
def sdSpec (ops : CellOps α) (fill : α) (sumL sumsqL countL : List α) (i : Nat) : α :=
  if ops.isZero ((countL[i]?).getD fill) then ops.negOne
  else ops.fsqrt (ops.fdiv
    (ops.fsub ((sumsqL[i]?).getD fill)
      (ops.fdiv (ops.pow2 ((sumL[i]?).getD fill)) (ops.toF ((countL[i]?).getD fill))))
    (ops.fsub (ops.toF ((countL[i]?).getD fill)) ops.one))

/-- The all-rejecting write oracle: the store rejects every write
(models a store whose writes all fail with an I/O error). -/
def wok_none : String → Nat → Bool := fun _ _ => false

/-- Concrete interpretation of the cell operations over `Nat`, used to
witness structural facts that hold for every interpretation. -/
def natOpsW : CellOps Nat :=
  { isZero := fun v => v == 0
    toF := id
    fdiv := fun a b => a + b
    fsub := fun a b => a + 2 * b
    pow2 := fun a => a * a
    fsqrt := id
    one := 1
    negOne := 77 }

/-- Exact-arithmetic interpretation of the cell operations over `ℚ`
(sqrt left as the identity, applied to the exact variance). -/
def ratOpsW : CellOps ℚ :=
  { isZero := fun v => v == 0
    toF := id
    fdiv := fun a b => a / b
    fsub := fun a b => a - b
    pow2 := fun a => a ^ 2
    fsqrt := id
    one := 1
    negOne := -1 }

/-- Witness store for the stats example `sum=[10] sumsq=[30] count=[4]`. -/
def statFileW : HFile ℚ :=
  [("/g/sum_rev", [10]), ("/g/sumsq_rev", [30]), ("/g/count_rev", [4])]

/-- Witness store with one zero-count cell. -/
def zeroCountFileW : HFile Nat :=
  [("/g/sum_rev", [10]), ("/g/sumsq_rev", [30]), ("/g/count_rev", [0])]

/-- Store whose `count_rev` dataset is shorter than `sum_rev`. -/
def mismatchFileW : HFile Nat :=
  [("/g/sum_rev", [5, 7]), ("/g/sumsq_rev", [1, 1]), ("/g/count_rev", [3])]

/-- Well-formed two-cell accumulator store. -/
def statFileN : HFile Nat :=
  [("/g/sum_rev", [5, 7]), ("/g/sumsq_rev", [1, 1]), ("/g/count_rev", [3, 3])]

/-! ### Store and slice lemmas -/

theorem dsLookup_store_write_self (file : HFile α) (name : String) (v : List α) :
    dsLookup (store_write file name v) name = some v := by
  induction file with
  | nil => simp [store_write, dsLookup]
  | cons kv t ih =>
    by_cases h : kv.1 = name <;> simp [store_write, dsLookup, h, ih]

theorem dsLookup_store_write_ne (file : HFile α) {name name' : String}
    (h : name' ≠ name) (v : List α) :
    dsLookup (store_write file name v) name' = dsLookup file name' := by
  induction file with
  | nil =>
    simp only [store_write, dsLookup]
    rw [if_neg (fun heq => h (Eq.symm heq))]
  | cons kv t ih =>
    by_cases hk : kv.1 = name
    · simp [store_write, dsLookup, hk, Ne.symm h]
    · simp only [store_write, if_neg hk, dsLookup]
      by_cases hk' : kv.1 = name' <;> simp [hk', ih]

theorem length_writeSlice {l v : List α} {s : Nat} (h : s + v.length ≤ l.length) :
    (writeSlice l s v).length = l.length := by
  simp [writeSlice]
  omega

theorem getElem?_writeSlice {l v : List α} {s : Nat} (h : s + v.length ≤ l.length)
    (p : Nat) :
    (writeSlice l s v)[p]? =
      if s ≤ p ∧ p < s + v.length then v[p - s]? else l[p]? := by
  have hs : (l.take s).length = s := by simp; omega
  have hsv : (l.take s ++ v).length = s + v.length := by simp [hs]
  unfold writeSlice
  by_cases h2 : p < s + v.length
  · rw [List.getElem?_append_left (by omega)]
    by_cases h1 : p < s
    · rw [List.getElem?_append_left (by omega), List.getElem?_take, if_pos h1,
        if_neg (by omega)]
    · rw [List.getElem?_append_right (by omega), hs, if_pos (by omega)]
  · rw [List.getElem?_append_right (by rw [hsv]; omega), hsv, if_neg (by omega),
      List.getElem?_drop]
    congr 1
    omega

theorem readSlice_eq_some {l : List α} {lo hi : Nat} (h1 : hi ≤ l.length)
    (h2 : lo ≤ hi) :
    readSlice l lo hi = some ((l.drop lo).take (hi - lo)) := by
  simp [readSlice, h1, h2]

theorem length_dropTake {l : List α} {lo n : Nat} (h : lo + n ≤ l.length) :
    ((l.drop lo).take n).length = n := by
  simp
  omega

theorem getElem?_dropTake (l : List α) (lo n j : Nat) :
    ((l.drop lo).take n)[j]? = if j < n then l[lo + j]? else none := by
  rw [List.getElem?_take]
  by_cases h : j < n <;> simp [h, List.getElem?_drop]

/-! ### rev_array lemmas -/

theorem revRows_length {ncols : Nat} :
    ∀ (n : Nat) (xs : List α), xs.length = n * ncols →
      ((toRows ncols n xs).reverse.flatten).length = n * ncols := by
  intro n
  induction n with
  | zero => intro xs h; simp [toRows]
  | succ n ih =>
    intro xs h
    have hdl : (xs.drop ncols).length = n * ncols := by
      simp only [List.length_drop, h, Nat.succ_mul]
      omega
    have htake : (xs.take ncols).length = ncols := by
      simp only [List.length_take, h, Nat.succ_mul]
      omega
    simp only [toRows, List.reverse_cons, List.flatten_append, List.flatten_cons,
      List.flatten_nil, List.append_nil, List.length_append, ih _ hdl, htake,
      Nat.succ_mul]

theorem revRows_getElem? {ncols : Nat} :
    ∀ (n : Nat) (xs : List α), xs.length = n * ncols →
      ∀ i c, i < n → c < ncols →
        ((toRows ncols n xs).reverse.flatten)[i * ncols + c]? =
          xs[(n - 1 - i) * ncols + c]? := by
  intro n
  induction n with
  | zero => intro xs h i c hi; omega
  | succ n ih =>
    intro xs h i c hi hc
    have hdl : (xs.drop ncols).length = n * ncols := by
      simp only [List.length_drop, h, Nat.succ_mul]
      omega
    have hlen : ((toRows ncols n (xs.drop ncols)).reverse.flatten).length = n * ncols :=
      revRows_length n _ hdl
    simp only [toRows, List.reverse_cons, List.flatten_append, List.flatten_cons,
      List.flatten_nil, List.append_nil]
    by_cases hin : i < n
    · have hbound : i * ncols + c < n * ncols := by
        calc i * ncols + c < i * ncols + ncols := by omega
          _ = (i + 1) * ncols := (Nat.succ_mul i ncols).symm
          _ ≤ n * ncols := Nat.mul_le_mul_right _ (by omega)
      rw [List.getElem?_append_left (by rw [hlen]; exact hbound)]
      rw [ih _ hdl i c hin hc, List.getElem?_drop]
      congr 1
      have h2 : n - i = (n - 1 - i) + 1 := by omega
      have h3 : n + 1 - 1 - i = n - i := by omega
      rw [h3, h2, Nat.succ_mul]
      omega
    · have hieq : i = n := by omega
      rw [hieq]
      rw [List.getElem?_append_right (by rw [hlen]; exact Nat.le_add_right _ _), hlen]
      rw [show n * ncols + c - n * ncols = c from by omega]
      rw [List.getElem?_take, if_pos hc]
      rw [show n + 1 - 1 - n = 0 from by omega]
      simp

theorem rev_array_eq_some {input : List α} {nrows ncols : Nat}
    (h : input.length = nrows * ncols) :
    rev_array input nrows ncols = some ((toRows ncols nrows input).reverse.flatten) := by
  simp [rev_array, h]

theorem rev_array_eq_none {input : List α} {nrows ncols : Nat}
    (h : input.length ≠ nrows * ncols) :
    rev_array input nrows ncols = none := by
  simp [rev_array, h]

/-! ### Row and column arithmetic helpers -/

theorem rowlt_iff {x c : Nat} (hc : c < x) {r m : Nat} :
    r * x + c < m * x ↔ r < m := by
  constructor
  · intro h
    by_contra hge
    push_neg at hge
    have := Nat.mul_le_mul_right x hge
    omega
  · intro h
    have h1 : r + 1 ≤ m := h
    have h2 := Nat.mul_le_mul_right x h1
    have h3 : r * x + c < (r + 1) * x := by rw [Nat.succ_mul]; omega
    omega

theorem rowle_iff {x c : Nat} (hc : c < x) {r m : Nat} :
    m * x ≤ r * x + c ↔ m ≤ r := by
  constructor
  · intro h
    by_contra hge
    push_neg at hge
    have h1 : r + 1 ≤ m := hge
    have h2 := Nat.mul_le_mul_right x h1
    have h3 : r * x + c < (r + 1) * x := by rw [Nat.succ_mul]; omega
    omega
  · intro h
    have := Nat.mul_le_mul_right x h
    omega

theorem row_sub {x c r a : Nat} (ha : a ≤ r) :
    r * x + c - a * x = (r - a) * x + c := by
  have h1 : (r - a) * x = r * x - a * x := Nat.sub_mul r a x
  have h2 := Nat.mul_le_mul_right x ha
  omega

theorem row_add (x c a b : Nat) :
    a * x + (b * x + c) = (a + b) * x + c := by
  rw [Nat.add_mul]
  omega

theorem getElem?_getD_of_lt {l : List α} {j : Nat} (h : j < l.length) (d : α) :
    l[j]? = some ((l[j]?).getD d) := by
  rw [List.getElem?_eq_getElem h]
  rfl

/-- Effect of one reversal iteration on the output dataset: cross-writing
the two row-reversed batches extends the processed-row region from
`[0, yy) ∪ [y-1-yy, y-1)` to `[0, yy+rows) ∪ [y-1-yy-rows, y-1)`, every
written row `r` holding input row `y - 2 - r` (the off-by-one mirror
start makes the written value `y-2-r`, not `y-1-r`). -/
theorem revStepInv (ds : List α) (fill : α) {x y half yy rows : Nat}
    (hx : 0 < x) (hy : 2 ≤ y) (hhalf : half = (y + 1) / 2)
    (hlen : (y - 1) * x ≤ ds.length)
    (hyy : yy < half) (hr1 : 1 ≤ rows) (hyr : yy + rows ≤ half)
    {out : List α} (hlen2 : out.length = ds.length)
    (hinv : ∀ r c, c < x → r * x + c < ds.length →
      out[r * x + c]? = some (if r < yy ∨ (y - 1 - yy ≤ r ∧ r < y - 1) then
        (ds[(y - 2 - r) * x + c]?).getD fill else fill)) :
    ∀ r c, c < x → r * x + c < ds.length →
      (writeSlice (writeSlice out (yy * x)
          ((toRows x rows ((ds.drop ((y - yy - 1 - rows) * x)).take (rows * x))).reverse.flatten))
        ((y - yy - 1 - rows) * x)
        ((toRows x rows ((ds.drop (yy * x)).take (rows * x))).reverse.flatten))[r * x + c]? =
      some (if r < yy + rows ∨ (y - 1 - (yy + rows) ≤ r ∧ r < y - 1) then
        (ds[(y - 2 - r) * x + c]?).getD fill else fill) := by
  intro r c hc hp
  have hhy : half ≤ y - 1 := by omega
  have hfw_hi : yy * x + rows * x ≤ ds.length := by
    have h1 : yy * x + rows * x = (yy + rows) * x := (Nat.add_mul yy rows x).symm
    have h2 : (yy + rows) * x ≤ (y - 1) * x := Nat.mul_le_mul_right x (by omega)
    omega
  have hmw_hi : (y - yy - 1 - rows) * x + rows * x ≤ ds.length := by
    have h1 : (y - yy - 1 - rows) * x + rows * x = (y - yy - 1) * x :=  by
      rw [← Nat.add_mul]
      congr 1
      omega
    have h2 : (y - yy - 1) * x ≤ (y - 1) * x := Nat.mul_le_mul_right x (by omega)
    omega
  have hFd : ((ds.drop (yy * x)).take (rows * x)).length = rows * x := by
    apply length_dropTake
    exact hfw_hi
  have hMd : ((ds.drop ((y - yy - 1 - rows) * x)).take (rows * x)).length = rows * x := by
    apply length_dropTake
    exact hmw_hi
  have hF : ((toRows x rows ((ds.drop (yy * x)).take (rows * x))).reverse.flatten).length
      = rows * x := revRows_length rows _ hFd
  have hM : ((toRows x rows ((ds.drop ((y - yy - 1 - rows) * x)).take
      (rows * x))).reverse.flatten).length = rows * x := revRows_length rows _ hMd
  have hout1len : (writeSlice out (yy * x)
      ((toRows x rows ((ds.drop ((y - yy - 1 - rows) * x)).take
        (rows * x))).reverse.flatten)).length = ds.length := by
    rw [length_writeSlice]
    · exact hlen2
    · rw [hM, hlen2]
      exact hfw_hi
  rw [getElem?_writeSlice (by rw [hF, hout1len]; exact hmw_hi)]
  rw [hF]
  by_cases hA : y - 1 - yy - rows ≤ r ∧ r < y - yy - 1
  · -- the index sits in the mirror window: value comes from the
    -- row-reversed forward batch
    rw [if_pos (by
      constructor
      · exact (rowle_iff hc).mpr (by omega)
      · have hb : (y - yy - 1 - rows) * x + rows * x = (y - yy - 1) * x := by
          rw [← Nat.add_mul]
          congr 1
          omega
        rw [hb]
        exact (rowlt_iff hc).mpr (by omega))]
    have hsub : r * x + c - (y - yy - 1 - rows) * x = (r - (y - yy - 1 - rows)) * x + c :=
      row_sub (by omega)
    rw [hsub]
    have hi : r - (y - yy - 1 - rows) < rows := by omega
    rw [revRows_getElem? rows _ hFd _ c hi hc]
    rw [getElem?_dropTake]
    rw [if_pos ((rowlt_iff hc).mpr (by omega))]
    rw [row_add]
    have hidx : yy + (rows - 1 - (r - (y - yy - 1 - rows))) = y - 2 - r := by omega
    rw [hidx]
    rw [if_pos (Or.inr (by omega))]
    have hlt : (y - 2 - r) * x + c < ds.length := by
      have h2 : (y - 2 - r) * x + c < (y - 1) * x := (rowlt_iff hc).mpr (by omega)
      omega
    exact getElem?_getD_of_lt hlt fill
  · rw [if_neg (by
      intro hmem
      apply hA
      have hb : (y - yy - 1 - rows) * x + rows * x = (y - yy - 1) * x := by
        rw [← Nat.add_mul]
        congr 1
        omega
      rw [hb] at hmem
      have h1 := (rowle_iff hc).mp hmem.1
      exact ⟨by omega, (rowlt_iff hc).mp hmem.2⟩)]
    rw [getElem?_writeSlice (by rw [hM, hlen2]; exact hfw_hi)]
    rw [hM]
    by_cases hB2 : yy ≤ r ∧ r < yy + rows
    · -- the index sits in the forward window: value comes from the
      -- row-reversed mirror batch
      rw [if_pos (by
        constructor
        · exact (rowle_iff hc).mpr hB2.1
        · have hb : yy * x + rows * x = (yy + rows) * x := (Nat.add_mul yy rows x).symm
          rw [hb]
          exact (rowlt_iff hc).mpr hB2.2)]
      have hsub : r * x + c - yy * x = (r - yy) * x + c := row_sub hB2.1
      rw [hsub]
      have hi : r - yy < rows := by omega
      rw [revRows_getElem? rows _ hMd _ c hi hc]
      rw [getElem?_dropTake]
      rw [if_pos ((rowlt_iff hc).mpr (by omega))]
      rw [row_add]
      have hidx : y - yy - 1 - rows + (rows - 1 - (r - yy)) = y - 2 - r := by omega
      rw [hidx]
      rw [if_pos (Or.inl (by omega))]
      have hlt : (y - 2 - r) * x + c < ds.length := by
        have h2 : (y - 2 - r) * x + c < (y - 1) * x := (rowlt_iff hc).mpr (by omega)
        omega
      exact getElem?_getD_of_lt hlt fill
    · -- untouched index: the covered-region condition is unchanged
      rw [if_neg (by
        intro hmem
        apply hB2
        have hb : yy * x + rows * x = (yy + rows) * x := (Nat.add_mul yy rows x).symm
        rw [hb] at hmem
        exact ⟨(rowle_iff hc).mp hmem.1, (rowlt_iff hc).mp hmem.2⟩)]
      rw [hinv r c hc hp]
      congr 1
      by_cases hcond : r < yy + rows ∨ (y - 1 - (yy + rows) ≤ r ∧ r < y - 1)
      · rw [if_pos hcond, if_pos (by omega)]
      · rw [if_neg hcond, if_neg (by omega)]

/-- Single unfolding of a successful reversal iteration: with the
all-accepting oracle, enough room in the input, and `yy < half`, one
loop step rewrites the two windows and recurses at `yy + B`. -/
theorem revLoop_step (ds : List α) (fill : α) {x y B half : Nat} (fuel yy : Nat)
    (out : List α)
    (hx : 0 < x) (hB : 1 ≤ B) (hy : 2 ≤ y) (hhalf : half = (y + 1) / 2)
    (hlen : (y - 1) * x ≤ ds.length) (hlen2 : out.length = ds.length)
    (hyy : yy < half) :
    revLoop (fun _ => true) ds x y half B (fuel + 1) yy out =
      revLoop (fun _ => true) ds x y half B fuel (yy + B)
        (writeSlice (writeSlice out (yy * x)
            ((toRows x (lines_to_read B half yy)
              ((ds.drop ((y - yy - 1 - lines_to_read B half yy) * x)).take
                (lines_to_read B half yy * x))).reverse.flatten))
          ((y - yy - 1 - lines_to_read B half yy) * x)
          ((toRows x (lines_to_read B half yy)
            ((ds.drop (yy * x)).take (lines_to_read B half yy * x))).reverse.flatten)) := by
  have hrows : lines_to_read B half yy = min B (half - yy) := by
    unfold lines_to_read
    split <;> omega
  have hr1 : 1 ≤ lines_to_read B half yy := by omega
  have hyr : yy + lines_to_read B half yy ≤ half := by omega
  have hhy : half ≤ y - 1 := by omega
  have hnou : ¬ y < yy + 1 + lines_to_read B half yy := by omega
  have hfw_hi : yy * x + lines_to_read B half yy * x ≤ ds.length := by
    have h1 : yy * x + lines_to_read B half yy * x
        = (yy + lines_to_read B half yy) * x := (Nat.add_mul _ _ x).symm
    have h2 : (yy + lines_to_read B half yy) * x ≤ (y - 1) * x :=
      Nat.mul_le_mul_right x (by omega)
    omega
  have hmw_hi : (y - yy - 1 - lines_to_read B half yy) * x
      + lines_to_read B half yy * x ≤ ds.length := by
    have h1 : (y - yy - 1 - lines_to_read B half yy) * x
        + lines_to_read B half yy * x = (y - yy - 1) * x := by
      rw [← Nat.add_mul]
      congr 1
      omega
    have h2 : (y - yy - 1) * x ≤ (y - 1) * x := Nat.mul_le_mul_right x (by omega)
    omega
  have hFd : ((ds.drop (yy * x)).take (lines_to_read B half yy * x)).length
      = lines_to_read B half yy * x := length_dropTake hfw_hi
  have hMd : ((ds.drop ((y - yy - 1 - lines_to_read B half yy) * x)).take
      (lines_to_read B half yy * x)).length
      = lines_to_read B half yy * x := length_dropTake hmw_hi
  have hF := revRows_length (lines_to_read B half yy) _ hFd
  have hM := revRows_length (lines_to_read B half yy) _ hMd
  have hsub1 : yy * x + lines_to_read B half yy * x - yy * x
      = lines_to_read B half yy * x := by omega
  have hsub2 : (y - yy - 1 - lines_to_read B half yy) * x
      + lines_to_read B half yy * x
      - (y - yy - 1 - lines_to_read B half yy) * x
      = lines_to_read B half yy * x := by omega
  have hw1len : yy * x + ((toRows x (lines_to_read B half yy)
      ((ds.drop ((y - yy - 1 - lines_to_read B half yy) * x)).take
        (lines_to_read B half yy * x))).reverse.flatten).length ≤ out.length := by
    rw [hM, hlen2]
    exact hfw_hi
  have hout1len : (writeSlice out (yy * x)
      ((toRows x (lines_to_read B half yy)
        ((ds.drop ((y - yy - 1 - lines_to_read B half yy) * x)).take
          (lines_to_read B half yy * x))).reverse.flatten)).length = ds.length := by
    rw [length_writeSlice hw1len]
    exact hlen2
  have hw2len : (y - yy - 1 - lines_to_read B half yy) * x
      + ((toRows x (lines_to_read B half yy)
        ((ds.drop (yy * x)).take (lines_to_read B half yy * x))).reverse.flatten).length
      ≤ (writeSlice out (yy * x)
        ((toRows x (lines_to_read B half yy)
          ((ds.drop ((y - yy - 1 - lines_to_read B half yy) * x)).take
            (lines_to_read B half yy * x))).reverse.flatten)).length := by
    rw [hF, hout1len]
    exact hmw_hi
  simp only [revLoop, if_pos hyy, fwdWin, revWin, if_neg hnou,
    readSlice_eq_some (show yy * x + lines_to_read B half yy * x ≤ ds.length from hfw_hi)
      (Nat.le_add_right _ _),
    readSlice_eq_some (show (y - yy - 1 - lines_to_read B half yy) * x
        + lines_to_read B half yy * x ≤ ds.length from hmw_hi)
      (Nat.le_add_right _ _),
    hsub1, hsub2, rev_array_eq_some hFd, rev_array_eq_some hMd, dsWrite,
    hF, hM, hout1len, hlen2, hfw_hi, hmw_hi, if_true, and_true, true_and]

/-- Full characterization of the reversal loop run to completion with an
all-accepting write oracle: it succeeds, preserves the output length and
leaves every cell of row `r < y - 1` holding the input cell of row
`y - 2 - r`, with all remaining cells at the fill value. -/
theorem revLoop_run (ds : List α) (fill : α) {x y B half : Nat}
    (hx : 0 < x) (hB : 1 ≤ B) (hy : 2 ≤ y) (hhalf : half = (y + 1) / 2)
    (hlen : (y - 1) * x ≤ ds.length) :
    ∀ (fuel yy : Nat) (out : List α),
      half ≤ yy + fuel →
      out.length = ds.length →
      (∀ r c, c < x → r * x + c < ds.length →
        out[r * x + c]? =
          some (if r < min yy half ∨ (y - 1 - min yy half ≤ r ∧ r < y - 1) then
            (ds[(y - 2 - r) * x + c]?).getD fill else fill)) →
      ((revLoop (fun _ => true) ds x y half B fuel yy out).2 = true ∧
       (revLoop (fun _ => true) ds x y half B fuel yy out).1.length = ds.length ∧
       (∀ r c, c < x → r * x + c < ds.length →
         (revLoop (fun _ => true) ds x y half B fuel yy out).1[r * x + c]? =
           some (if r < y - 1 then (ds[(y - 2 - r) * x + c]?).getD fill else fill))) := by
  intro fuel
  induction fuel with
  | zero =>
    intro yy out hfuel hlen2 hinv
    have hyy : ¬ yy < half := by omega
    simp only [revLoop, if_neg hyy]
    refine ⟨by trivial, hlen2, ?_⟩
    intro r c hc hp
    rw [hinv r c hc hp]
    have hmin : min yy half = half := by omega
    rw [hmin]
    congr 1
    by_cases hcond : r < y - 1
    · rw [if_pos (by omega), if_pos hcond]
    · rw [if_neg (by omega), if_neg hcond]
  | succ fuel ih =>
    intro yy out hfuel hlen2 hinv
    by_cases hyy : yy < half
    · have hrows : lines_to_read B half yy = min B (half - yy) := by
        unfold lines_to_read
        split <;> omega
      have hr1 : 1 ≤ lines_to_read B half yy := by omega
      have hyr : yy + lines_to_read B half yy ≤ half := by omega
      have hhy : half ≤ y - 1 := by omega
      have hfw_hi : yy * x + lines_to_read B half yy * x ≤ ds.length := by
        have h1 : yy * x + lines_to_read B half yy * x
            = (yy + lines_to_read B half yy) * x := (Nat.add_mul _ _ x).symm
        have h2 : (yy + lines_to_read B half yy) * x ≤ (y - 1) * x :=
          Nat.mul_le_mul_right x (by omega)
        omega
      have hmw_hi : (y - yy - 1 - lines_to_read B half yy) * x
          + lines_to_read B half yy * x ≤ ds.length := by
        have h1 : (y - yy - 1 - lines_to_read B half yy) * x
            + lines_to_read B half yy * x = (y - yy - 1) * x := by
          rw [← Nat.add_mul]
          congr 1
          omega
        have h2 : (y - yy - 1) * x ≤ (y - 1) * x := Nat.mul_le_mul_right x (by omega)
        omega
      have hFd : ((ds.drop (yy * x)).take (lines_to_read B half yy * x)).length
          = lines_to_read B half yy * x := length_dropTake hfw_hi
      have hMd : ((ds.drop ((y - yy - 1 - lines_to_read B half yy) * x)).take
          (lines_to_read B half yy * x)).length
          = lines_to_read B half yy * x := length_dropTake hmw_hi
      have hF := revRows_length (lines_to_read B half yy) _ hFd
      have hM := revRows_length (lines_to_read B half yy) _ hMd
      have hw1len : yy * x + ((toRows x (lines_to_read B half yy)
          ((ds.drop ((y - yy - 1 - lines_to_read B half yy) * x)).take
            (lines_to_read B half yy * x))).reverse.flatten).length ≤ out.length := by
        rw [hM, hlen2]
        exact hfw_hi
      have hout1len : (writeSlice out (yy * x)
          ((toRows x (lines_to_read B half yy)
            ((ds.drop ((y - yy - 1 - lines_to_read B half yy) * x)).take
              (lines_to_read B half yy * x))).reverse.flatten)).length = ds.length := by
        rw [length_writeSlice hw1len]
        exact hlen2
      have hout2len : (writeSlice (writeSlice out (yy * x)
          ((toRows x (lines_to_read B half yy)
            ((ds.drop ((y - yy - 1 - lines_to_read B half yy) * x)).take
              (lines_to_read B half yy * x))).reverse.flatten))
          ((y - yy - 1 - lines_to_read B half yy) * x)
          ((toRows x (lines_to_read B half yy)
            ((ds.drop (yy * x)).take
              (lines_to_read B half yy * x))).reverse.flatten)).length = ds.length := by
        rw [length_writeSlice (by rw [hF, hout1len]; exact hmw_hi)]
        exact hout1len
      rw [revLoop_step ds fill fuel yy out hx hB hy hhalf hlen hlen2 hyy]
      apply ih (yy + B) _ (by omega) hout2len
      have hstep := revStepInv ds fill hx hy hhalf hlen hyy hr1 hyr hlen2 (by
        intro r c hc hp
        rw [hinv r c hc hp]
        congr 1
        have hmin : min yy half = yy := by omega
        rw [hmin])
      intro r c hc hp
      rw [hstep r c hc hp]
      congr 1
      have hmin : min (yy + B) half = yy + lines_to_read B half yy := by omega
      rw [hmin]
    · simp only [revLoop, if_neg hyy]
      refine ⟨by trivial, hlen2, ?_⟩
      intro r c hc hp
      rw [hinv r c hc hp]
      have hmin : min yy half = half := by omega
      rw [hmin]
      congr 1
      by_cases hcond : r < y - 1
      · rw [if_pos (by omega), if_pos hcond]
      · rw [if_neg (by omega), if_neg hcond]

theorem store_write_twice (f : HFile α) (n : String) (v w : List α) :
    store_write (store_write f n v) n w = store_write f n w := by
  induction f with
  | nil => simp [store_write]
  | cons kv t ih =>
    by_cases h : kv.1 = n <;> simp [store_write, h, ih]

theorem list_eq_of_pointwise {l1 l2 : List α} {L : Nat} (h1 : l1.length = L)
    (h2 : l2.length = L) (h : ∀ p, p < L → l1[p]? = l2[p]?) : l1 = l2 := by
  apply List.ext_getElem?
  intro p
  by_cases hp : p < L
  · exact h p hp
  · rw [List.getElem?_eq_none (by omega), List.getElem?_eq_none (by omega)]

/-- Top-level characterization of a completed `reverse_ds_rows` run: the
store gains exactly the `_rev` dataset, whose row `r < ysize - 1` holds
input row `ysize - 2 - r` and whose last row keeps the fill value. -/
theorem reverse_ds_rows_run (fill : α) (file : HFile α) (base : String)
    {x y B : Nat} (ds : List α)
    (hends : ends_with base "_rev" = false)
    (hex : link_exists file (base ++ "_rev") = false)
    (hds : dsLookup file base = some ds)
    (hx : 0 < x) (hB : 1 ≤ B) (hy : 2 ≤ y)
    (hlen : (y - 1) * x ≤ ds.length) :
    ∃ out : List α,
      reverse_ds_rows wok_all fill file base x y B
        = (store_write file (base ++ "_rev") out, true) ∧
      out.length = ds.length ∧
      ∀ r c, c < x → r * x + c < ds.length →
        out[r * x + c]? =
          some (if r < y - 1 then (ds[(y - 2 - r) * x + c]?).getD fill else fill) := by
  have hinv0 : ∀ r c, c < x → r * x + c < ds.length →
      (List.replicate ds.length fill)[r * x + c]? =
        some (if r < min 0 ((y + 1) / 2) ∨
          (y - 1 - min 0 ((y + 1) / 2) ≤ r ∧ r < y - 1) then
          (ds[(y - 2 - r) * x + c]?).getD fill else fill) := by
    intro r c hc hp
    rw [List.getElem?_replicate, if_pos hp, if_neg (by omega)]
  have hrun := revLoop_run ds fill hx hB hy rfl hlen ((y + 1) / 2) 0
    (List.replicate ds.length fill) (by omega) (by simp) hinv0
  refine ⟨(revLoop (fun _ => true) ds x y ((y + 1) / 2) B ((y + 1) / 2) 0
    (List.replicate ds.length fill)).1, ?_, hrun.2.1, hrun.2.2⟩
  simp only [reverse_ds_rows, hends, hex, hds, create_ds, Bool.false_eq_true,
    if_false, if_neg (show ¬ B = 0 by omega)]
  rw [store_write_twice]
  exact Prod.ext rfl hrun.1

/-- Unfolding of `reverse_ds_rows` past its guards, dataset open and
output creation, for a positive batch size. -/
theorem reverse_unfold (fill : α) (file : HFile α) (base : String)
    {x y B : Nat} (ds : List α)
    (hends : ends_with base "_rev" = false)
    (hex : link_exists file (base ++ "_rev") = false)
    (hds : dsLookup file base = some ds) (hB : 1 ≤ B) :
    reverse_ds_rows wok_all fill file base x y B =
      (store_write file (base ++ "_rev")
        (revLoop (fun _ => true) ds x y ((y + 1) / 2) B ((y + 1) / 2) 0
          (List.replicate ds.length fill)).1,
       (revLoop (fun _ => true) ds x y ((y + 1) / 2) B ((y + 1) / 2) 0
          (List.replicate ds.length fill)).2) := by
  simp only [reverse_ds_rows, hends, hex, hds, create_ds, Bool.false_eq_true,
    if_false, if_neg (show ¬ B = 0 by omega)]
  rw [store_write_twice]
  rfl

/-- With `ysize = 1` the very first iteration underflows the usize
subtraction `ysize - yy - 1 - rows`, so the loop panics at once. -/
theorem revLoop_y1 (ds : List α) {B : Nat} (x : Nat) (hB : 1 ≤ B)
    (out : List α) :
    revLoop (fun _ => true) ds x 1 1 B 1 0 out = (out, false) := by
  have hrows : lines_to_read B 1 0 = 1 := by
    unfold lines_to_read
    split <;> omega
  simp only [revLoop, if_pos (by omega : (0 : Nat) < 1), hrows]
  rw [if_pos (by omega : 1 < 0 + 1 + 1)]

/-- With `xsize = 0` every window is empty, so the loop reads and writes
nothing and completes successfully without touching the output. -/
theorem revLoop_x0 (ds : List α) {y B half : Nat} (hB : 1 ≤ B) (hy : 2 ≤ y)
    (hhalf : half = (y + 1) / 2) :
    ∀ (fuel yy : Nat) (out : List α), half ≤ yy + fuel →
      revLoop (fun _ => true) ds 0 y half B fuel yy out = (out, true) := by
  intro fuel
  induction fuel with
  | zero =>
    intro yy out hfuel
    simp only [revLoop, if_neg (show ¬ yy < half by omega)]
  | succ fuel ih =>
    intro yy out hfuel
    by_cases hyy : yy < half
    · have hrows : lines_to_read B half yy = min B (half - yy) := by
        unfold lines_to_read
        split <;> omega
      have hnou : ¬ y < yy + 1 + lines_to_read B half yy := by omega
      have hnil : ∀ n : Nat, ((toRows 0 n ([] : List α)).reverse.flatten) = [] := by
        intro n
        apply List.eq_nil_of_length_eq_zero
        rw [revRows_length n ([] : List α) (by simp)]
        simp
      have hread : readSlice ds 0 0 = some ([] : List α) := by
        simp [readSlice]
      have hrev : rev_array ([] : List α) (lines_to_read B half yy) 0
          = some ((toRows 0 (lines_to_read B half yy) ([] : List α)).reverse.flatten) :=
        rev_array_eq_some (by simp)
      have hwr : dsWrite true out 0 ([] : List α) = some out := by
        simp [dsWrite, writeSlice]
      simp only [revLoop, if_pos hyy, fwdWin, revWin, if_neg hnou, Nat.mul_zero,
        Nat.add_zero, hread, hrev, hnil, hwr]
      exact ih (yy + B) out (by omega)
    · simp only [revLoop, if_neg hyy]

/-- When the input dataset is shorter than `(ysize - 1) * xsize`, the
very first iteration already fails one of its two reads (the mirror
window of iteration 0 ends at `(ysize - 1) * xsize`), so the loop panics
before writing anything, whatever the batch size. -/
theorem revLoop_short (ds : List α) {x y B half : Nat} (hB : 1 ≤ B)
    (hy : 2 ≤ y) (hhalf : half = (y + 1) / 2)
    (hshort : ds.length < (y - 1) * x)
    (fuel : Nat) (out : List α) :
    revLoop (fun _ => true) ds x y half B (fuel + 1) 0 out = (out, false) := by
  have hrows : lines_to_read B half 0 = min B half := by
    unfold lines_to_read
    split <;> omega
  have hhalf1 : 1 ≤ half := by omega
  have hhy : half ≤ y - 1 := by omega
  have hr1 : 1 ≤ lines_to_read B half 0 := by omega
  have hrle : lines_to_read B half 0 ≤ y - 1 := by omega
  have hnou : ¬ y < 0 + 1 + lines_to_read B half 0 := by omega
  by_cases hfwd : 0 * x + lines_to_read B half 0 * x ≤ ds.length
  · have hmr : readSlice ds ((y - 0 - 1 - lines_to_read B half 0) * x)
        ((y - 0 - 1 - lines_to_read B half 0) * x + lines_to_read B half 0 * x)
        = none := by
      have heq : (y - 0 - 1 - lines_to_read B half 0) * x
          + lines_to_read B half 0 * x = (y - 1) * x := by
        rw [← Nat.add_mul]
        congr 1
        omega
      unfold readSlice
      rw [if_neg]
      intro hcon
      rw [heq] at hcon
      omega
    have hFd : ((ds.drop (0 * x)).take
        (0 * x + lines_to_read B half 0 * x - 0 * x)).length
        = lines_to_read B half 0 * x := by
      rw [length_dropTake (by omega)]
      omega
    simp only [revLoop, if_pos (show 0 < half by omega), fwdWin, revWin,
      if_neg hnou, readSlice_eq_some (show 0 * x + lines_to_read B half 0 * x
        ≤ ds.length from hfwd) (Nat.le_add_right _ _),
      rev_array_eq_some hFd, hmr]
  · have hfr : readSlice ds (0 * x) (0 * x + lines_to_read B half 0 * x) = none := by
      unfold readSlice
      rw [if_neg]
      intro hcon
      omega
    simp only [revLoop, if_pos (show 0 < half by omega), fwdWin, revWin,
      if_neg hnou, hfr]

/-- Batch-size invariance of the reverser: with an all-accepting store,
two runs with positive batch sizes produce identical results — the same
final store and the same completion flag — on every input. -/
theorem reverse_batch_invariant (fill : α) (file : HFile α) (base : String)
    (x y : Nat) {B1 B2 : Nat} (hB1 : 1 ≤ B1) (hB2 : 1 ≤ B2) :
    reverse_ds_rows wok_all fill file base x y B1
      = reverse_ds_rows wok_all fill file base x y B2 := by
  by_cases hends : ends_with base "_rev"
  · simp [reverse_ds_rows, hends]
  · replace hends : ends_with base "_rev" = false := by
      simp [hends]
    by_cases hex : link_exists file (base ++ "_rev")
    · simp [reverse_ds_rows, hends, hex]
    · replace hex : link_exists file (base ++ "_rev") = false := by
        simp [hex]
      cases hds : dsLookup file base with
      | none => simp [reverse_ds_rows, hends, hex, hds]
      | some ds =>
        rw [reverse_unfold fill file base ds hends hex hds hB1,
          reverse_unfold fill file base ds hends hex hds hB2]
        by_cases hy0 : y = 0
        · subst hy0
          simp [revLoop]
        by_cases hy1 : y = 1
        · subst hy1
          rw [revLoop_y1 ds x hB1, revLoop_y1 ds x hB2]
        have hy : 2 ≤ y := by omega
        by_cases hx : x = 0
        · subst hx
          rw [revLoop_x0 ds hB1 hy rfl _ 0 _ (by omega),
            revLoop_x0 ds hB2 hy rfl _ 0 _ (by omega)]
        replace hx : 0 < x := by omega
        by_cases hshort : ds.length < (y - 1) * x
        · have hh1 : 1 ≤ (y + 1) / 2 := by omega
          obtain ⟨f1, hf1⟩ : ∃ f1, (y + 1) / 2 = f1 + 1 := ⟨(y + 1) / 2 - 1, by omega⟩
          rw [hf1, revLoop_short ds hB1 hy (by omega) hshort f1 _,
            revLoop_short ds hB2 hy (by omega) hshort f1 _]
        · replace hshort : (y - 1) * x ≤ ds.length := by omega
          have h1 := revLoop_run ds fill hx hB1 hy rfl hshort ((y + 1) / 2) 0
            (List.replicate ds.length fill) (by omega) (by simp) (by
              intro r c hc hp
              rw [List.getElem?_replicate, if_pos hp, if_neg (by omega)])
          have h2 := revLoop_run ds fill hx hB2 hy rfl hshort ((y + 1) / 2) 0
            (List.replicate ds.length fill) (by omega) (by simp) (by
              intro r c hc hp
              rw [List.getElem?_replicate, if_pos hp, if_neg (by omega)])
          have houts : (revLoop (fun _ => true) ds x y ((y + 1) / 2) B1
              ((y + 1) / 2) 0 (List.replicate ds.length fill)).1
              = (revLoop (fun _ => true) ds x y ((y + 1) / 2) B2
                ((y + 1) / 2) 0 (List.replicate ds.length fill)).1 := by
            apply list_eq_of_pointwise h1.2.1 h2.2.1
            intro p hp
            have hdecomp : p = (p / x) * x + p % x := by
              have h := Nat.div_add_mod p x
              rw [Nat.mul_comm] at h
              omega
            have hc : p % x < x := Nat.mod_lt _ hx
            rw [hdecomp, h1.2.2 _ _ hc (by omega), h2.2.2 _ _ hc (by omega)]
          rw [Prod.ext houts (h1.1.trans h2.1.symm)]

/-! ### Stats reducer lemmas -/

theorem length_batchMean (ops : CellOps α) (s cnt : List α) :
    (batchMean ops s cnt).length = min s.length cnt.length := by
  simp [batchMean]

theorem length_batchSd (ops : CellOps α) (s sq cnt : List α) :
    (batchSd ops s sq cnt).length
      = min (min (min sq.length (min (min s.length cnt.length) cnt.length)) cnt.length)
        cnt.length := by
  simp [batchSd, batchVariance]

theorem batchMean_getElem (ops : CellOps α) (fill : α) {sumL countL : List α}
    {ii n j : Nat} (hj : j < n) (hs : ii + n ≤ sumL.length)
    (hc : ii + n ≤ countL.length) :
    (batchMean ops ((sumL.drop ii).take n) ((countL.drop ii).take n))[j]? =
      some (meanSpec ops fill sumL countL (ii + j)) := by
  simp only [batchMean, meanSpec, List.getElem?_zipWith, List.getElem?_map,
    getElem?_dropTake, if_pos hj,
    List.getElem?_eq_getElem (show ii + j < sumL.length by omega),
    List.getElem?_eq_getElem (show ii + j < countL.length by omega),
    Option.map_some', Option.getD_some]

theorem batchSd_getElem (ops : CellOps α) (fill : α) {sumL sumsqL countL : List α}
    {ii n j : Nat} (hj : j < n) (hs : ii + n ≤ sumL.length)
    (hq : ii + n ≤ sumsqL.length) (hc : ii + n ≤ countL.length) :
    (batchSd ops ((sumL.drop ii).take n) ((sumsqL.drop ii).take n)
      ((countL.drop ii).take n))[j]? =
      some (sdSpec ops fill sumL sumsqL countL (ii + j)) := by
  simp only [batchSd, batchVariance, sdSpec, List.getElem?_zipWith, List.getElem?_map,
    getElem?_dropTake, if_pos hj,
    List.getElem?_eq_getElem (show ii + j < sumL.length by omega),
    List.getElem?_eq_getElem (show ii + j < sumsqL.length by omega),
    List.getElem?_eq_getElem (show ii + j < countL.length by omega),
    Option.map_some', Option.getD_some]

/-- Full characterization of the stats loop with an all-accepting store:
it completes, the mean and sd outputs hold `meanSpec`/`sdSpec` at every
index below the sum dataset's length, and no other path changes. -/
theorem calcLoop_run (ops : CellOps α) (fill : α) (mean_path sd_path : String)
    (hne : mean_path ≠ sd_path)
    (sumL sumsqL countL : List α) {chunk : Nat} (hchunk : 1 ≤ chunk)
    (hsq : sumL.length ≤ sumsqL.length) (hcnt : sumL.length ≤ countL.length) :
    ∀ (fuel ii : Nat) (file : HFile α),
      sumL.length ≤ ii + fuel →
      (∀ mL, dsLookup file mean_path = some mL →
        mL.length = sumL.length ∧
        ∀ i, i < sumL.length → mL[i]? =
          some (if i < ii then meanSpec ops fill sumL countL i else fill)) →
      (link_exists file mean_path = true) →
      (∀ sL, dsLookup file sd_path = some sL →
        sL.length = sumL.length ∧
        ∀ i, i < sumL.length → sL[i]? =
          some (if i < ii then sdSpec ops fill sumL sumsqL countL i else fill)) →
      (link_exists file sd_path = true) →
      ((calcLoop ops wok_all mean_path sd_path sumL sumsqL countL
          sumL.length chunk fuel ii file).2 = true ∧
       (∀ mL, dsLookup (calcLoop ops wok_all mean_path sd_path sumL sumsqL countL
          sumL.length chunk fuel ii file).1 mean_path = some mL →
          mL.length = sumL.length ∧
          ∀ i, i < sumL.length → mL[i]? = some (meanSpec ops fill sumL countL i)) ∧
       (link_exists (calcLoop ops wok_all mean_path sd_path sumL sumsqL countL
          sumL.length chunk fuel ii file).1 mean_path = true) ∧
       (∀ sL, dsLookup (calcLoop ops wok_all mean_path sd_path sumL sumsqL countL
          sumL.length chunk fuel ii file).1 sd_path = some sL →
          sL.length = sumL.length ∧
          ∀ i, i < sumL.length → sL[i]? =
            some (sdSpec ops fill sumL sumsqL countL i)) ∧
       (link_exists (calcLoop ops wok_all mean_path sd_path sumL sumsqL countL
          sumL.length chunk fuel ii file).1 sd_path = true) ∧
       (∀ pth, pth ≠ mean_path → pth ≠ sd_path →
          dsLookup (calcLoop ops wok_all mean_path sd_path sumL sumsqL countL
            sumL.length chunk fuel ii file).1 pth = dsLookup file pth)) := by
  intro fuel
  induction fuel with
  | zero =>
    intro ii file hfuel hm hmex hsd hsdex
    have hii : ¬ ii < sumL.length := by omega
    simp only [calcLoop, if_neg hii]
    refine ⟨by trivial, ?_, hmex, ?_, hsdex, fun pth h1 h2 => by trivial⟩
    · intro mL hmL
      obtain ⟨hl, hv⟩ := hm mL hmL
      exact ⟨hl, fun i hi => by rw [hv i hi, if_pos (by omega)]⟩
    · intro sL hsL
      obtain ⟨hl, hv⟩ := hsd sL hsL
      exact ⟨hl, fun i hi => by rw [hv i hi, if_pos (by omega)]⟩
  | succ fuel ih =>
    intro ii file hfuel hm hmex hsd hsdex
    by_cases hii : ii < sumL.length
    · obtain ⟨mL, hmL⟩ : ∃ mL, dsLookup file mean_path = some mL := by
        cases hq : dsLookup file mean_path with
        | none => rw [link_exists, hq] at hmex; simp at hmex
        | some v => exact ⟨v, rfl⟩
      obtain ⟨sL, hsL⟩ : ∃ sL, dsLookup file sd_path = some sL := by
        cases hq : dsLookup file sd_path with
        | none => rw [link_exists, hq] at hsdex; simp at hsdex
        | some v => exact ⟨v, rfl⟩
      obtain ⟨hmlen, hmv⟩ := hm mL hmL
      obtain ⟨hslen, hsv⟩ := hsd sL hsL
      have hn : (if ii + chunk > sumL.length then sumL.length - ii else chunk)
          = min chunk (sumL.length - ii) := by split <;> omega
      set n := if ii + chunk > sumL.length then sumL.length - ii else chunk with hndef
      have hn1 : 1 ≤ n := by omega
      have hiin : ii + n ≤ sumL.length := by omega
      have hsub : ii + n - ii = n := by omega
      have hmblen : (batchMean ops ((sumL.drop ii).take n)
          ((countL.drop ii).take n)).length = n := by
        rw [length_batchMean, length_dropTake hiin, length_dropTake (by omega)]
        omega
      have hsblen : (batchSd ops ((sumL.drop ii).take n) ((sumsqL.drop ii).take n)
          ((countL.drop ii).take n)).length = n := by
        rw [length_batchSd, length_dropTake hiin, length_dropTake (by omega),
          length_dropTake (by omega)]
        omega
      have hw1 : fileWrite true file mean_path ii
          (batchMean ops ((sumL.drop ii).take n) ((countL.drop ii).take n))
          = some (store_write file mean_path (writeSlice mL ii
            (batchMean ops ((sumL.drop ii).take n) ((countL.drop ii).take n)))) := by
        have hcond2 : ii + (batchMean ops ((sumL.drop ii).take n)
            ((countL.drop ii).take n)).length ≤ mL.length := by
          rw [hmblen, hmlen]
          omega
        simp only [fileWrite, hmL, dsWrite, true_and]
        rw [if_pos hcond2]
      have hlk1 : dsLookup (store_write file mean_path (writeSlice mL ii
          (batchMean ops ((sumL.drop ii).take n) ((countL.drop ii).take n))))
          sd_path = some sL := by
        rw [dsLookup_store_write_ne _ (Ne.symm hne), hsL]
      have hw2 : fileWrite true (store_write file mean_path (writeSlice mL ii
          (batchMean ops ((sumL.drop ii).take n) ((countL.drop ii).take n))))
          sd_path ii (batchSd ops ((sumL.drop ii).take n) ((sumsqL.drop ii).take n)
            ((countL.drop ii).take n))
          = some (store_write (store_write file mean_path (writeSlice mL ii
              (batchMean ops ((sumL.drop ii).take n) ((countL.drop ii).take n))))
              sd_path (writeSlice sL ii
                (batchSd ops ((sumL.drop ii).take n) ((sumsqL.drop ii).take n)
                  ((countL.drop ii).take n)))) := by
        have hcond2 : ii + (batchSd ops ((sumL.drop ii).take n)
            ((sumsqL.drop ii).take n) ((countL.drop ii).take n)).length ≤ sL.length := by
          rw [hsblen, hslen]
          omega
        simp only [fileWrite, hlk1, dsWrite, true_and]
        rw [if_pos hcond2]
      simp only [calcLoop, if_pos hii, ← hndef,
        readSlice_eq_some (show ii + n ≤ sumL.length from hiin) (Nat.le_add_right ii n),
        readSlice_eq_some (show ii + n ≤ sumsqL.length by omega) (Nat.le_add_right ii n),
        readSlice_eq_some (show ii + n ≤ countL.length by omega) (Nat.le_add_right ii n),
        hsub, wok_all, hw1, hw2]
      obtain ⟨g1, g2, g3, g4, g5, g6⟩ := ih (ii + chunk)
        (store_write (store_write file mean_path (writeSlice mL ii
            (batchMean ops ((sumL.drop ii).take n) ((countL.drop ii).take n))))
          sd_path (writeSlice sL ii
            (batchSd ops ((sumL.drop ii).take n) ((sumsqL.drop ii).take n)
              ((countL.drop ii).take n))))
        (by omega)
        (by
          intro mL' hmL'
          rw [dsLookup_store_write_ne _ hne,
            dsLookup_store_write_self] at hmL'
          cases hmL'
          constructor
          · rw [length_writeSlice (by rw [hmblen, hmlen]; omega), hmlen]
          · intro i hi
            rw [getElem?_writeSlice (by rw [hmblen, hmlen]; omega)]
            rw [hmblen]
            by_cases hwin : ii ≤ i ∧ i < ii + n
            · rw [if_pos hwin]
              have hj : i - ii < n := by omega
              have hb := @batchMean_getElem _ ops fill sumL countL ii n
                (i - ii) hj hiin (by omega)
              rw [hb, show ii + (i - ii) = i from by omega, if_pos (by omega)]
            · rw [if_neg hwin, hmv i hi]
              congr 1
              by_cases hlt : i < ii
              · rw [if_pos hlt, if_pos (by omega)]
              · rw [if_neg hlt, if_neg (by omega)])
        (by
          rw [link_exists, dsLookup_store_write_ne _ hne,
            dsLookup_store_write_self]
          rfl)
        (by
          intro sL' hsL'
          rw [dsLookup_store_write_self] at hsL'
          cases hsL'
          constructor
          · rw [length_writeSlice (by rw [hsblen, hslen]; omega), hslen]
          · intro i hi
            rw [getElem?_writeSlice (by rw [hsblen, hslen]; omega)]
            rw [hsblen]
            by_cases hwin : ii ≤ i ∧ i < ii + n
            · rw [if_pos hwin]
              have hj : i - ii < n := by omega
              have hb := @batchSd_getElem _ ops fill sumL sumsqL countL ii n
                (i - ii) hj hiin (by omega) (by omega)
              rw [hb, show ii + (i - ii) = i from by omega, if_pos (by omega)]
            · rw [if_neg hwin, hsv i hi]
              congr 1
              by_cases hlt : i < ii
              · rw [if_pos hlt, if_pos (by omega)]
              · rw [if_neg hlt, if_neg (by omega)])
        (by
          rw [link_exists, dsLookup_store_write_self]
          rfl)
      exact ⟨g1, g2, g3, g4, g5, fun pth hp1 hp2 => (g6 pth hp1 hp2).trans (by
        rw [dsLookup_store_write_ne _ hp2, dsLookup_store_write_ne _ hp1])⟩
    · have hend : ∀ (file' : HFile α),
          calcLoop ops wok_all mean_path sd_path sumL sumsqL countL
            sumL.length chunk (fuel + 1) ii file' = (file', true) := by
        intro file'
        simp only [calcLoop, if_neg hii]
      rw [hend]
      refine ⟨rfl, ?_, hmex, ?_, hsdex, fun pth h1 h2 => rfl⟩
      · intro mL hmL
        obtain ⟨hl, hv⟩ := hm mL hmL
        exact ⟨hl, fun i hi => by rw [hv i hi, if_pos (by omega)]⟩
      · intro sL hsL
        obtain ⟨hl, hv⟩ := hsd sL hsL
        exact ⟨hl, fun i hi => by rw [hv i hi, if_pos (by omega)]⟩

/-! ### Path distinctness -/

theorem path_pair_ne {g a b : String} (hlen : a.length ≠ b.length) :
    ("/" ++ g ++ a) ≠ ("/" ++ g ++ b) := by
  intro h
  have h2 := congrArg String.length h
  rw [String.length_append, String.length_append, String.length_append,
    String.length_append] at h2
  omega

theorem sumsq_ne_count (g : String) :
    ("/" ++ g ++ "/sumsq_rev") ≠ ("/" ++ g ++ "/count_rev") := by
  intro h
  have h2 : ("/" ++ g ++ "/sumsq_rev").data = ("/" ++ g ++ "/count_rev").data := by
    rw [h]
  simp only [String.data_append] at h2
  have h3 := List.append_cancel_left h2
  simp at h3

theorem mean_ne_sd (g : String) :
    ("/" ++ g ++ "/mean_rev") ≠ ("/" ++ g ++ "/sd_rev") :=
  path_pair_ne (by decide)

/-- Top-level characterization of a completed `calc_mean_sd` run with an
all-accepting store: the group gains `mean_rev` and `sd_rev` datasets
sized from `sum_rev` alone, holding `meanSpec`/`sdSpec` at every index,
and every other path is untouched. -/
theorem calc_mean_sd_run (ops : CellOps α) (fill : α) (file : HFile α)
    (g : String) {chunk : Nat} (hchunk : 1 ≤ chunk)
    (sumL sumsqL countL : List α)
    (hsum : dsLookup file ("/" ++ g ++ "/sum_rev") = some sumL)
    (hsumsq : dsLookup file ("/" ++ g ++ "/sumsq_rev") = some sumsqL)
    (hcount : dsLookup file ("/" ++ g ++ "/count_rev") = some countL)
    (hmex : link_exists file ("/" ++ g ++ "/mean_rev") = false)
    (hsdex : link_exists file ("/" ++ g ++ "/sd_rev") = false)
    (hsq : sumL.length ≤ sumsqL.length) (hcnt : sumL.length ≤ countL.length) :
    ((calc_mean_sd ops wok_all fill file g chunk).2 = true ∧
     (∀ mL, dsLookup (calc_mean_sd ops wok_all fill file g chunk).1
        ("/" ++ g ++ "/mean_rev") = some mL →
        mL.length = sumL.length ∧
        ∀ i, i < sumL.length → mL[i]? = some (meanSpec ops fill sumL countL i)) ∧
     (link_exists (calc_mean_sd ops wok_all fill file g chunk).1
        ("/" ++ g ++ "/mean_rev") = true) ∧
     (∀ sL, dsLookup (calc_mean_sd ops wok_all fill file g chunk).1
        ("/" ++ g ++ "/sd_rev") = some sL →
        sL.length = sumL.length ∧
        ∀ i, i < sumL.length → sL[i]? =
          some (sdSpec ops fill sumL sumsqL countL i)) ∧
     (link_exists (calc_mean_sd ops wok_all fill file g chunk).1
        ("/" ++ g ++ "/sd_rev") = true) ∧
     (∀ pth, pth ≠ ("/" ++ g ++ "/mean_rev") → pth ≠ ("/" ++ g ++ "/sd_rev") →
        dsLookup (calc_mean_sd ops wok_all fill file g chunk).1 pth
          = dsLookup file pth)) := by
  have hne := mean_ne_sd g
  have hcr2 : link_exists (store_write file ("/" ++ g ++ "/mean_rev")
      (List.replicate sumL.length fill)) ("/" ++ g ++ "/sd_rev") = false := by
    rw [link_exists, dsLookup_store_write_ne _ (Ne.symm hne)]
    exact hsdex
  simp only [calc_mean_sd, hmex, hsum, hsumsq, hcount, create_ds, hcr2,
    Bool.false_eq_true, if_false, if_neg (show ¬ chunk = 0 by omega)]
  obtain ⟨g1, g2, g3, g4, g5, g6⟩ := calcLoop_run ops fill
    ("/" ++ g ++ "/mean_rev") ("/" ++ g ++ "/sd_rev") hne sumL sumsqL countL
    hchunk hsq hcnt sumL.length 0
    (store_write (store_write file ("/" ++ g ++ "/mean_rev")
        (List.replicate sumL.length fill))
      ("/" ++ g ++ "/sd_rev") (List.replicate sumL.length fill))
    (by omega)
    (by
      intro mL hmL
      rw [dsLookup_store_write_ne _ hne, dsLookup_store_write_self] at hmL
      cases hmL
      refine ⟨List.length_replicate _ _, ?_⟩
      intro i hi
      rw [List.getElem?_replicate, if_pos hi, if_neg (by omega)])
    (by
      rw [link_exists, dsLookup_store_write_ne _ hne, dsLookup_store_write_self]
      rfl)
    (by
      intro sL hsL
      rw [dsLookup_store_write_self] at hsL
      cases hsL
      refine ⟨List.length_replicate _ _, ?_⟩
      intro i hi
      rw [List.getElem?_replicate, if_pos hi, if_neg (by omega)])
    (by
      rw [link_exists, dsLookup_store_write_self]
      rfl)
  exact ⟨g1, g2, g3, g4, g5, fun pth hp1 hp2 => (g6 pth hp1 hp2).trans (by
    rw [dsLookup_store_write_ne _ hp2, dsLookup_store_write_ne _ hp1])⟩

/-- Unfolding of `reverse_ds_rows` past its guards for an arbitrary
write oracle. -/
theorem reverse_unfold_wok (wok : String → Nat → Bool) (fill : α)
    (file : HFile α) (base : String) {x y B : Nat} (ds : List α)
    (hends : ends_with base "_rev" = false)
    (hex : link_exists file (base ++ "_rev") = false)
    (hds : dsLookup file base = some ds) (hB : 1 ≤ B) :
    reverse_ds_rows wok fill file base x y B =
      (store_write file (base ++ "_rev")
        (revLoop (wok (base ++ "_rev")) ds x y ((y + 1) / 2) B ((y + 1) / 2) 0
          (List.replicate ds.length fill)).1,
       (revLoop (wok (base ++ "_rev")) ds x y ((y + 1) / 2) B ((y + 1) / 2) 0
          (List.replicate ds.length fill)).2) := by
  simp only [reverse_ds_rows, hends, hex, hds, create_ds, Bool.false_eq_true,
    if_false, if_neg (show ¬ B = 0 by omega)]
  rw [store_write_twice]

/-- When the store rejects the very first write (at flat index 0 of the
output), the reversal loop panics on iteration 0 with nothing written:
both `write_slice` calls are `unwrap`ped in the source. -/
theorem revLoop_wfail (wok : Nat → Bool) (ds : List α) {x y B half : Nat}
    (hB : 1 ≤ B) (hy : 2 ≤ y) (hhalf : half = (y + 1) / 2)
    (hlen : (y - 1) * x ≤ ds.length) (hw : wok (0 * x) = false)
    (fuel : Nat) (out : List α) :
    revLoop wok ds x y half B (fuel + 1) 0 out = (out, false) := by
  have hrows : lines_to_read B half 0 = min B half := by
    unfold lines_to_read
    split <;> omega
  have hhalf1 : 1 ≤ half := by omega
  have hhy : half ≤ y - 1 := by omega
  have hr1 : 1 ≤ lines_to_read B half 0 := by omega
  have hrle : lines_to_read B half 0 ≤ y - 1 := by omega
  have hnou : ¬ y < 0 + 1 + lines_to_read B half 0 := by omega
  have hfwd : 0 * x + lines_to_read B half 0 * x ≤ ds.length := by
    have h2 : lines_to_read B half 0 * x ≤ (y - 1) * x :=
      Nat.mul_le_mul_right x hrle
    omega
  have hmwd : (y - 0 - 1 - lines_to_read B half 0) * x
      + lines_to_read B half 0 * x ≤ ds.length := by
    have heq : (y - 0 - 1 - lines_to_read B half 0) * x
        + lines_to_read B half 0 * x = (y - 1) * x := by
      rw [← Nat.add_mul]
      congr 1
      omega
    omega
  have hFd : ((ds.drop (0 * x)).take
      (0 * x + lines_to_read B half 0 * x - 0 * x)).length
      = lines_to_read B half 0 * x := by
    rw [length_dropTake (by omega)]
    omega
  have hMd : ((ds.drop ((y - 0 - 1 - lines_to_read B half 0) * x)).take
      ((y - 0 - 1 - lines_to_read B half 0) * x + lines_to_read B half 0 * x
        - (y - 0 - 1 - lines_to_read B half 0) * x)).length
      = lines_to_read B half 0 * x := by
    rw [length_dropTake (by omega)]
    omega
  simp only [revLoop, if_pos (show 0 < half by omega), fwdWin, revWin,
    if_neg hnou,
    readSlice_eq_some (show 0 * x + lines_to_read B half 0 * x ≤ ds.length
      from hfwd) (Nat.le_add_right _ _),
    readSlice_eq_some (show (y - 0 - 1 - lines_to_read B half 0) * x
        + lines_to_read B half 0 * x ≤ ds.length from hmwd)
      (Nat.le_add_right _ _),
    rev_array_eq_some hFd, rev_array_eq_some hMd, dsWrite, hw,
    Bool.false_eq_true, false_and, if_false]

/-- Whether the stats loop completes never depends on the write oracle
or on the store being written: the control flow consults only the three
captured accumulator lists, and both output writes discard their
result. -/
theorem calcLoop_flag_indep (ops : CellOps α) (wok1 wok2 : String → Nat → Bool)
    (mean_path sd_path : String) (sumL sumsqL countL : List α)
    (max_size chunk_size : Nat) :
    ∀ (fuel ii : Nat) (f1 f2 : HFile α),
      (calcLoop ops wok1 mean_path sd_path sumL sumsqL countL max_size
        chunk_size fuel ii f1).2
        = (calcLoop ops wok2 mean_path sd_path sumL sumsqL countL max_size
          chunk_size fuel ii f2).2 := by
  intro fuel
  induction fuel with
  | zero =>
    intro ii f1 f2
    by_cases hii : ii < max_size <;> simp [calcLoop, hii]
  | succ fuel ih =>
    intro ii f1 f2
    by_cases hii : ii < max_size
    · simp only [calcLoop, if_pos hii]
      cases h1 : readSlice sumL ii
          (ii + if ii + chunk_size > max_size then max_size - ii
            else chunk_size) with
      | none => rfl
      | some s =>
        cases h2 : readSlice sumsqL ii
            (ii + if ii + chunk_size > max_size then max_size - ii
              else chunk_size) with
        | none => rfl
        | some sq =>
          cases h3 : readSlice countL ii
              (ii + if ii + chunk_size > max_size then max_size - ii
                else chunk_size) with
          | none => rfl
          | some cnt => exact ih (ii + chunk_size) _ _
    · simp [calcLoop, hii]

/-- When one of the other two accumulators is shorter than the sum
dataset, some batch read must fail, and the stats loop ends in a panic
(flag `false`) instead of completing. -/
theorem calcLoop_read_fail (ops : CellOps α) (wok : String → Nat → Bool)
    (mean_path sd_path : String) (sumL sumsqL countL : List α) {chunk : Nat}
    (hchunk : 1 ≤ chunk)
    (hshort : min sumsqL.length countL.length < sumL.length) :
    ∀ (fuel ii : Nat) (file : HFile α),
      ii ≤ min sumsqL.length countL.length →
      (calcLoop ops wok mean_path sd_path sumL sumsqL countL sumL.length
        chunk fuel ii file).2 = false := by
  intro fuel
  induction fuel with
  | zero =>
    intro ii file hii
    simp [calcLoop, show ii < sumL.length by omega]
  | succ fuel ih =>
    intro ii file hii
    have hlt : ii < sumL.length := by omega
    simp only [calcLoop, if_pos hlt]
    set n := if ii + chunk > sumL.length then sumL.length - ii else chunk
      with hndef
    have hn : n = min chunk (sumL.length - ii) := by
      rw [hndef]
      split <;> omega
    have hnmax : ii + n ≤ sumL.length := by omega
    simp only [readSlice_eq_some hnmax (Nat.le_add_right ii n)]
    by_cases hq : ii + n ≤ sumsqL.length
    · simp only [readSlice_eq_some hq (Nat.le_add_right ii n)]
      by_cases hc : ii + n ≤ countL.length
      · simp only [readSlice_eq_some hc (Nat.le_add_right ii n)]
        have hnext : ii + chunk ≤ min sumsqL.length countL.length := by
          by_cases hcase : ii + chunk > sumL.length
          · have hcn : n = sumL.length - ii := by rw [hndef, if_pos hcase]
            omega
          · have hcn : n = chunk := by rw [hndef, if_neg hcase]
            omega
        exact ih (ii + chunk) _ hnext
      · simp only [show readSlice countL ii (ii + n) = none from by
          unfold readSlice
          rw [if_neg]
          intro hcon
          exact hc hcon.1]
    · simp only [show readSlice sumsqL ii (ii + n) = none from by
        unfold readSlice
        rw [if_neg]
        intro hcon
        exact hq hcon.1]


/-! ### Claim theorems -/

/-- C1: the code does NOT reverse the rows.  Evaluating
`reverse_ds_rows` on the claimed input (`height = 5`, `width = 2`, rows
`[[1,2],[3,4],[5,6],[7,8],[9,10]]`, the source's batch size 100, fill 0)
produces rows `[[7,8],[5,6],[3,4],[1,2],[0,0]]`: output row `r` holds
input row `height - 2 - r` (not `height - 1 - r`), the middle row
`[5,6]` lands at row 1 instead of row 2, the first input row of the
claimed output `[9,10]` never appears, and the last output row is never
written and keeps the dataset fill value.  The claimed output
`[[9,10],[7,8],[5,6],[3,4],[1,2]]` therefore differs from the actual
one. -/
theorem claim_C1_code_eval :
    reverse_ds_rows wok_all (0 : Nat)
        [("ds", [1, 2, 3, 4, 5, 6, 7, 8, 9, 10])] "ds" 2 5 100 =
      ([("ds", [1, 2, 3, 4, 5, 6, 7, 8, 9, 10]),
        ("ds_rev", [7, 8, 5, 6, 3, 4, 1, 2, 0, 0])], true) ∧
    [7, 8, 5, 6, 3, 4, 1, 2, 0, 0] ≠ [9, 10, 7, 8, 5, 6, 3, 4, 1, 2] := by
  constructor
  · decide
  · decide

/-- C2: the forward and mirror windows of the reversal loop are NOT
disjoint.  At `height = 5`, `width = 2`, the source batch size 100 and
iteration `yy = 0` (with `half = ceil(5/2) = 3`, `rows = 3`), the
forward window is `[0, 6)` and the mirror window `[2, 8)`: they overlap
on `[2, 6)` — two full rows — and they do not coincide, so the overlap
is not the single-middle-row coincidence the claim allows (here height
is odd, yet the claim fails). -/
theorem claim_C2_counterexample :
    lines_to_read 100 ((5 + 1) / 2) 0 = 3 ∧
    fwdWin 2 0 3 = (0, 6) ∧
    revWin 2 5 0 3 = (2, 8) ∧
    max (fwdWin 2 0 3).1 (revWin 2 5 0 3).1
      < min (fwdWin 2 0 3).2 (revWin 2 5 0 3).2 ∧
    fwdWin 2 0 3 ≠ revWin 2 5 0 3 := by
  decide

/-- C8: a dataset whose name already ends with the `_rev` suffix is
rejected immediately: `reverse_ds_rows` returns with the store
unchanged and no dataset opened, created, read or written. -/
theorem claim_C8_rev_suffix_guard {α : Type} (wok : String → Nat → Bool)
    (fill : α) (file : HFile α) (base : String) (x y B : Nat)
    (h : ends_with base "_rev" = true) :
    reverse_ds_rows wok fill file base x y B = (file, true) := by
  simp [reverse_ds_rows, h]

/-- C8 witness at a concrete already-reversed dataset name. -/
theorem claim_C8_witness :
    reverse_ds_rows wok_all (0 : Nat) [("a_rev", [1, 2])] "a_rev" 2 1 100
      = ([("a_rev", [1, 2])], true) :=
  claim_C8_rev_suffix_guard wok_all 0 [("a_rev", [1, 2])] "a_rev" 2 1 100 (by decide)

/-- C6: the skip-if-exists guard.  When the output path already exists
— the `<name>_rev` dataset for the reverser, the group's `mean_rev`
dataset for the stats reducer — the operation returns immediately with
the whole store byte-identical (the returned store IS the input store)
and reports success, for every oracle, fill, geometry and batch size. -/
theorem claim_C6_skip_if_exists :
    (∀ (α : Type) (wok : String → Nat → Bool) (fill : α) (file : HFile α)
      (base : String) (x y B : Nat),
      link_exists file (base ++ "_rev") = true →
      reverse_ds_rows wok fill file base x y B = (file, true)) ∧
    (∀ (α : Type) (ops : CellOps α) (wok : String → Nat → Bool) (fill : α)
      (file : HFile α) (g : String) (chunk : Nat),
      link_exists file ("/" ++ g ++ "/mean_rev") = true →
      calc_mean_sd ops wok fill file g chunk = (file, true)) := by
  constructor
  · intro α wok fill file base x y B h
    by_cases hends : ends_with base "_rev"
    · simp [reverse_ds_rows, hends]
    · simp [reverse_ds_rows, hends, h]
  · intro α ops wok fill file g chunk h
    simp [calc_mean_sd, h]

/-- C6 witness: concrete skips for both operations. -/
theorem claim_C6_witness :
    reverse_ds_rows wok_all (0 : Nat) [("d", [1, 2]), ("d_rev", [9, 9])] "d" 2 1 100
      = ([("d", [1, 2]), ("d_rev", [9, 9])], true) ∧
    calc_mean_sd natOpsW wok_all 0 [("/g/mean_rev", [3])] "g" 5
      = ([("/g/mean_rev", [3])], true) :=
  ⟨claim_C6_skip_if_exists.1 Nat wok_all 0 _ "d" 2 1 100 (by decide),
   claim_C6_skip_if_exists.2 Nat natOpsW wok_all 0 _ "g" 5 (by decide)⟩

/-- C9: `rev_array` is total exactly under the shape precondition.
When the input length equals `nrows * ncols` it returns an array of the
same length whose flat element `r * ncols + c` is the input element
`(nrows - 1 - r) * ncols + c`; when the length differs, the reshape
unwrap fails (modelled as `none`). -/
theorem claim_C9_rev_array_total :
    (∀ (α : Type) (input : List α) (nrows ncols : Nat),
      input.length = nrows * ncols →
      ∃ out, rev_array input nrows ncols = some out ∧
        out.length = input.length ∧
        ∀ r c, r < nrows → c < ncols →
          out[r * ncols + c]? = input[(nrows - 1 - r) * ncols + c]?) ∧
    (∀ (α : Type) (input : List α) (nrows ncols : Nat),
      input.length ≠ nrows * ncols →
      rev_array input nrows ncols = none) := by
  constructor
  · intro α input nrows ncols h
    refine ⟨(toRows ncols nrows input).reverse.flatten, rev_array_eq_some h, ?_, ?_⟩
    · rw [revRows_length nrows input h, h]
    · intro r c hr hc
      exact revRows_getElem? nrows input h r c hr hc
  · intro α input nrows ncols h
    exact rev_array_eq_none h

/-- C9 witness: a concrete 3x2 array is reversed row-wise, and a
mismatched length panics. -/
theorem claim_C9_witness :
    (∃ out, rev_array [10, 11, 20, 21, 30, 31] 3 2 = some out ∧
      out.length = 6 ∧ out[0]? = some 30 ∧ out[2]? = some 20 ∧ out[4]? = some 10) ∧
    rev_array [1, 2, 3, 4, 5] 3 2 = none := by
  constructor
  · obtain ⟨out, h1, h2, h3⟩ :=
      claim_C9_rev_array_total.1 Nat [10, 11, 20, 21, 30, 31] 3 2 (by decide)
    refine ⟨out, h1, h2, ?_, ?_, ?_⟩
    · have := h3 0 0 (by decide) (by decide)
      simpa using this
    · have := h3 1 0 (by decide) (by decide)
      simpa using this
    · have := h3 2 0 (by decide) (by decide)
      simpa using this
  · exact claim_C9_rev_array_total.2 Nat [1, 2, 3, 4, 5] 3 2 (by decide)

/-- C3: the zero-count sentinel.  For every interpretation of the f32
arithmetic (so in particular whatever value the division by zero takes),
every flat index whose raw count value tests as zero — the mask is taken
from the stored count before the float conversion `toF` — receives
exactly the sentinel `-1` in the sd output. -/
theorem claim_C3_zero_count_sentinel {α : Type} (ops : CellOps α) (fill : α)
    (file : HFile α) (g : String) {chunk : Nat} (hchunk : 1 ≤ chunk)
    (sumL sumsqL countL : List α)
    (hsum : dsLookup file ("/" ++ g ++ "/sum_rev") = some sumL)
    (hsumsq : dsLookup file ("/" ++ g ++ "/sumsq_rev") = some sumsqL)
    (hcount : dsLookup file ("/" ++ g ++ "/count_rev") = some countL)
    (hmex : link_exists file ("/" ++ g ++ "/mean_rev") = false)
    (hsdex : link_exists file ("/" ++ g ++ "/sd_rev") = false)
    (hsq : sumL.length ≤ sumsqL.length) (hcnt : sumL.length ≤ countL.length)
    (i : Nat) (hi : i < sumL.length) (cv : α) (hcv : countL[i]? = some cv)
    (hz : ops.isZero cv = true) :
    ∃ sL, dsLookup (calc_mean_sd ops wok_all fill file g chunk).1
        ("/" ++ g ++ "/sd_rev") = some sL ∧ sL[i]? = some ops.negOne := by
  obtain ⟨g1, g2, g3, g4, g5, g6⟩ := calc_mean_sd_run ops fill file g hchunk
    sumL sumsqL countL hsum hsumsq hcount hmex hsdex hsq hcnt
  obtain ⟨sL, hsL⟩ : ∃ sL, dsLookup (calc_mean_sd ops wok_all fill file g chunk).1
      ("/" ++ g ++ "/sd_rev") = some sL := by
    cases hq : dsLookup (calc_mean_sd ops wok_all fill file g chunk).1
        ("/" ++ g ++ "/sd_rev") with
    | none => rw [link_exists, hq] at g5; simp at g5
    | some v => exact ⟨v, rfl⟩
  obtain ⟨hlen, hv⟩ := g4 sL hsL
  refine ⟨sL, hsL, ?_⟩
  rw [hv i hi]
  simp [sdSpec, hcv, hz]

/-- C3 witness: `count = [0]` yields the sentinel at index 0 under a
concrete interpretation of the operations. -/
theorem claim_C3_witness :
    ∃ sL, dsLookup (calc_mean_sd natOpsW wok_all 0 zeroCountFileW "g" 5).1
        ("/" ++ "g" ++ "/sd_rev") = some sL ∧ sL[0]? = some natOpsW.negOne :=
  claim_C3_zero_count_sentinel natOpsW 0 zeroCountFileW "g" (by decide)
    [10] [30] [0] (by decide) (by decide) (by decide) (by decide) (by decide)
    (by decide) (by decide) 0 (by decide) 0 (by decide) (by decide)

/-- C5: the mean and sd formulas.  For every interpretation of the f32
arithmetic and every index with a non-zero count, the written mean is
`sum / count` and the written sd is
`sqrt((sumsq - sum^2 / count) / (count - 1))`, the count being passed
through the integer-to-float conversion first. -/
theorem claim_C5_stats_formula {α : Type} (ops : CellOps α) (fill : α)
    (file : HFile α) (g : String) {chunk : Nat} (hchunk : 1 ≤ chunk)
    (sumL sumsqL countL : List α)
    (hsum : dsLookup file ("/" ++ g ++ "/sum_rev") = some sumL)
    (hsumsq : dsLookup file ("/" ++ g ++ "/sumsq_rev") = some sumsqL)
    (hcount : dsLookup file ("/" ++ g ++ "/count_rev") = some countL)
    (hmex : link_exists file ("/" ++ g ++ "/mean_rev") = false)
    (hsdex : link_exists file ("/" ++ g ++ "/sd_rev") = false)
    (hsq : sumL.length ≤ sumsqL.length) (hcnt : sumL.length ≤ countL.length)
    (i : Nat) (hi : i < sumL.length) (sv qv cv : α)
    (hsv : sumL[i]? = some sv) (hqv : sumsqL[i]? = some qv)
    (hcv : countL[i]? = some cv) (hz : ops.isZero cv = false) :
    ∃ mL sL,
      dsLookup (calc_mean_sd ops wok_all fill file g chunk).1
        ("/" ++ g ++ "/mean_rev") = some mL ∧
      dsLookup (calc_mean_sd ops wok_all fill file g chunk).1
        ("/" ++ g ++ "/sd_rev") = some sL ∧
      mL[i]? = some (ops.fdiv sv (ops.toF cv)) ∧
      sL[i]? = some (ops.fsqrt (ops.fdiv
        (ops.fsub qv (ops.fdiv (ops.pow2 sv) (ops.toF cv)))
        (ops.fsub (ops.toF cv) ops.one))) := by
  obtain ⟨g1, g2, g3, g4, g5, g6⟩ := calc_mean_sd_run ops fill file g hchunk
    sumL sumsqL countL hsum hsumsq hcount hmex hsdex hsq hcnt
  obtain ⟨mL, hmL⟩ : ∃ mL, dsLookup (calc_mean_sd ops wok_all fill file g chunk).1
      ("/" ++ g ++ "/mean_rev") = some mL := by
    cases hq : dsLookup (calc_mean_sd ops wok_all fill file g chunk).1
        ("/" ++ g ++ "/mean_rev") with
    | none => rw [link_exists, hq] at g3; simp at g3
    | some v => exact ⟨v, rfl⟩
  obtain ⟨sL, hsL⟩ : ∃ sL, dsLookup (calc_mean_sd ops wok_all fill file g chunk).1
      ("/" ++ g ++ "/sd_rev") = some sL := by
    cases hq : dsLookup (calc_mean_sd ops wok_all fill file g chunk).1
        ("/" ++ g ++ "/sd_rev") with
    | none => rw [link_exists, hq] at g5; simp at g5
    | some v => exact ⟨v, rfl⟩
  obtain ⟨hmlen, hmv⟩ := g2 mL hmL
  obtain ⟨hslen, hsv2⟩ := g4 sL hsL
  refine ⟨mL, sL, hmL, hsL, ?_, ?_⟩
  · rw [hmv i hi]
    simp [meanSpec, hsv, hcv]
  · rw [hsv2 i hi]
    simp [sdSpec, hsv, hqv, hcv, hz]

/-- C5 witness: for `sum = [10]`, `sumsq = [30]`, `count = [4]` under
exact rational arithmetic the written mean is `10/4 = 5/2 = 2.5` and the
value passed to the square root is the variance
`(30 - 10^2/4)/(4-1) = 5/3`, which is bracketed by `1.29099^2` and
`1.291^2`, certifying `sd = sqrt(5/3) ≈ 1.29099`. -/
theorem claim_C5_witness :
    (∃ mL sL,
      dsLookup (calc_mean_sd ratOpsW wok_all 0 statFileW "g" 1000000).1
        ("/" ++ "g" ++ "/mean_rev") = some mL ∧
      dsLookup (calc_mean_sd ratOpsW wok_all 0 statFileW "g" 1000000).1
        ("/" ++ "g" ++ "/sd_rev") = some sL ∧
      mL[0]? = some ((10 : ℚ) / 4) ∧
      sL[0]? = some ((30 - (10 : ℚ) ^ 2 / 4) / (4 - 1))) ∧
    (10 : ℚ) / 4 = 5 / 2 ∧
    (30 - (10 : ℚ) ^ 2 / 4) / (4 - 1) = 5 / 3 ∧
    (129099 / 100000 : ℚ) ^ 2 < 5 / 3 ∧ (5 / 3 : ℚ) < (1291 / 1000) ^ 2 := by
  refine ⟨?_, by norm_num, by norm_num, by norm_num, by norm_num⟩
  exact claim_C5_stats_formula ratOpsW 0 statFileW "g" (by decide)
    [10] [30] [4] rfl rfl rfl rfl rfl (by decide) (by decide)
    0 (by decide) 10 30 4 rfl rfl rfl (by decide)

/-- C7 counterexample: not every IOFailure aborts.  With a store that
rejects every write, `calc_mean_sd` still runs to completion (flag
`true`) and leaves the mean output at its fill value: the Rust source
discards the results of its two output writes (`let _ = ...` at
src/main.rs lines 183-184), silently swallowing the write failures
instead of panicking. -/
theorem claim_C7_counterexample :
    (calc_mean_sd natOpsW wok_none 0 statFileN "g" 2).2 = true ∧
    dsLookup (calc_mean_sd natOpsW wok_none 0 statFileN "g" 2).1
      ("/" ++ "g" ++ "/mean_rev") = some [0, 0] ∧
    dsLookup (calc_mean_sd natOpsW wok_none 0 statFileN "g" 2).1
      ("/" ++ "g" ++ "/sd_rev") = some [0, 0] := by
  decide

/-- C7 as amended.  MissingInput and read failures are fatal unwrap
panics in both operations, and write failures are fatal in
`reverse_ds_rows`; only the two output writes of `calc_mean_sd` discard
their result, so the reducer's completion never depends on write
failures.  Conjuncts:
(1) a missing input dataset panics the reverser after its guards;
(2a) a missing `sum_rev`, (2b) a missing `sumsq_rev`, (2c) a missing
`count_rev` each panic the reducer at the corresponding unwrapped open;
(3) a failing read panics the reverser: whenever the input is too short
for the first mirror read, the run aborts with the created output still
entirely at the fill value;
(4) a failing read panics the reducer: whenever `sumsq_rev` or
`count_rev` is shorter than `sum_rev`, the run ends with flag `false`;
(5) a rejected write panics the reverser: for every oracle that rejects
the first output write, the run aborts with the output still at fill;
(6) the reducer's completion flag is identical under every write oracle
— write failures are silently discarded, never fatal;
(7) concretely, with every write rejected the reducer still completes. -/
theorem claim_C7_fatal_errors :
    (∀ (α : Type) (fill : α) (file : HFile α) (base : String) (x y B : Nat),
      ends_with base "_rev" = false →
      link_exists file (base ++ "_rev") = false →
      dsLookup file base = none →
      reverse_ds_rows wok_all fill file base x y B = (file, false)) ∧
    (∀ (α : Type) (ops : CellOps α) (fill : α) (file : HFile α) (g : String)
      (chunk : Nat),
      link_exists file ("/" ++ g ++ "/mean_rev") = false →
      dsLookup file ("/" ++ g ++ "/sum_rev") = none →
      calc_mean_sd ops wok_all fill file g chunk = (file, false)) ∧
    (∀ (α : Type) (ops : CellOps α) (fill : α) (file : HFile α) (g : String)
      (chunk : Nat) (sumL : List α),
      link_exists file ("/" ++ g ++ "/mean_rev") = false →
      dsLookup file ("/" ++ g ++ "/sum_rev") = some sumL →
      dsLookup file ("/" ++ g ++ "/sumsq_rev") = none →
      calc_mean_sd ops wok_all fill file g chunk = (file, false)) ∧
    (∀ (α : Type) (ops : CellOps α) (fill : α) (file : HFile α) (g : String)
      (chunk : Nat) (sumL sumsqL : List α),
      link_exists file ("/" ++ g ++ "/mean_rev") = false →
      dsLookup file ("/" ++ g ++ "/sum_rev") = some sumL →
      dsLookup file ("/" ++ g ++ "/sumsq_rev") = some sumsqL →
      dsLookup file ("/" ++ g ++ "/count_rev") = none →
      calc_mean_sd ops wok_all fill file g chunk = (file, false)) ∧
    (∀ (α : Type) (fill : α) (file : HFile α) (base : String) (x y B : Nat)
      (ds : List α),
      ends_with base "_rev" = false →
      link_exists file (base ++ "_rev") = false →
      dsLookup file base = some ds → 1 ≤ B → 2 ≤ y →
      ds.length < (y - 1) * x →
      reverse_ds_rows wok_all fill file base x y B
        = (store_write file (base ++ "_rev")
            (List.replicate ds.length fill), false)) ∧
    (∀ (α : Type) (ops : CellOps α) (fill : α) (file : HFile α) (g : String)
      (chunk : Nat) (sumL sumsqL countL : List α),
      1 ≤ chunk →
      link_exists file ("/" ++ g ++ "/mean_rev") = false →
      link_exists file ("/" ++ g ++ "/sd_rev") = false →
      dsLookup file ("/" ++ g ++ "/sum_rev") = some sumL →
      dsLookup file ("/" ++ g ++ "/sumsq_rev") = some sumsqL →
      dsLookup file ("/" ++ g ++ "/count_rev") = some countL →
      min sumsqL.length countL.length < sumL.length →
      (calc_mean_sd ops wok_all fill file g chunk).2 = false) ∧
    (∀ (α : Type) (wok : String → Nat → Bool) (fill : α) (file : HFile α)
      (base : String) (x y B : Nat) (ds : List α),
      ends_with base "_rev" = false →
      link_exists file (base ++ "_rev") = false →
      dsLookup file base = some ds → 1 ≤ B → 2 ≤ y →
      (y - 1) * x ≤ ds.length →
      wok (base ++ "_rev") 0 = false →
      reverse_ds_rows wok fill file base x y B
        = (store_write file (base ++ "_rev")
            (List.replicate ds.length fill), false)) ∧
    (∀ (α : Type) (ops : CellOps α) (wok : String → Nat → Bool) (fill : α)
      (file : HFile α) (g : String) (chunk : Nat),
      (calc_mean_sd ops wok fill file g chunk).2
        = (calc_mean_sd ops wok_all fill file g chunk).2) ∧
    ((calc_mean_sd natOpsW wok_none 0 statFileN "g" 2).2 = true) := by
  refine ⟨?_, ?_, ?_, ?_, ?_, ?_, ?_, ?_, by decide⟩
  · intro α fill file base x y B hends hex hds
    simp [reverse_ds_rows, hends, hex, hds]
  · intro α ops fill file g chunk hmex hsum
    simp [calc_mean_sd, hmex, hsum]
  · intro α ops fill file g chunk sumL hmex hsum hq
    simp [calc_mean_sd, hmex, hsum, hq]
  · intro α ops fill file g chunk sumL sumsqL hmex hsum hsumsq hq
    simp [calc_mean_sd, hmex, hsum, hsumsq, hq]
  · intro α fill file base x y B ds hends hex hds hB hy hlen
    rw [reverse_unfold fill file base ds hends hex hds hB]
    obtain ⟨f1, hf1⟩ : ∃ f1, (y + 1) / 2 = f1 + 1 := ⟨(y + 1) / 2 - 1, by omega⟩
    rw [hf1, revLoop_short ds hB hy (by omega) hlen f1 _]
  · intro α ops fill file g chunk sumL sumsqL countL hchunk hmex hsdex hsum
      hsumsq hcount hshort
    have hne := mean_ne_sd g
    have hcr2 : link_exists (store_write file ("/" ++ g ++ "/mean_rev")
        (List.replicate sumL.length fill)) ("/" ++ g ++ "/sd_rev") = false := by
      rw [link_exists, dsLookup_store_write_ne _ (Ne.symm hne)]
      exact hsdex
    simp only [calc_mean_sd, hmex, hsum, hsumsq, hcount, create_ds, hcr2,
      Bool.false_eq_true, if_false, if_neg (show ¬ chunk = 0 by omega)]
    exact calcLoop_read_fail ops wok_all _ _ sumL sumsqL countL hchunk hshort
      sumL.length 0 _ (by omega)
  · intro α wok fill file base x y B ds hends hex hds hB hy hlen hw
    rw [reverse_unfold_wok wok fill file base ds hends hex hds hB]
    obtain ⟨f1, hf1⟩ : ∃ f1, (y + 1) / 2 = f1 + 1 := ⟨(y + 1) / 2 - 1, by omega⟩
    rw [hf1, revLoop_wfail (wok (base ++ "_rev")) ds hB hy (by omega) hlen
      (show wok (base ++ "_rev") (0 * x) = false from by
        rw [Nat.zero_mul]
        exact hw) f1 _]
  · intro α ops wok fill file g chunk
    by_cases hmex : link_exists file ("/" ++ g ++ "/mean_rev")
    · simp [calc_mean_sd, hmex]
    · replace hmex : link_exists file ("/" ++ g ++ "/mean_rev") = false := by
        simp [hmex]
      cases hsum : dsLookup file ("/" ++ g ++ "/sum_rev") with
      | none => simp [calc_mean_sd, hmex, hsum]
      | some sumL =>
        cases hqq : dsLookup file ("/" ++ g ++ "/sumsq_rev") with
        | none => simp [calc_mean_sd, hmex, hsum, hqq]
        | some sumsqL =>
          cases hcc : dsLookup file ("/" ++ g ++ "/count_rev") with
          | none => simp [calc_mean_sd, hmex, hsum, hqq, hcc]
          | some countL =>
            by_cases hsd2 : link_exists (store_write file
                ("/" ++ g ++ "/mean_rev") (List.replicate sumL.length fill))
                ("/" ++ g ++ "/sd_rev")
            · simp [calc_mean_sd, hmex, hsum, hqq, hcc, create_ds, hsd2]
            · replace hsd2 : link_exists (store_write file
                  ("/" ++ g ++ "/mean_rev") (List.replicate sumL.length fill))
                  ("/" ++ g ++ "/sd_rev") = false := by
                simp [hsd2]
              by_cases hch : chunk = 0
              · simp [calc_mean_sd, hmex, hsum, hqq, hcc, create_ds, hsd2, hch]
              · simp only [calc_mean_sd, hmex, hsum, hqq, hcc, create_ds, hsd2,
                  Bool.false_eq_true, if_false, if_neg hch]
                exact calcLoop_flag_indep ops wok wok_all
                  ("/" ++ g ++ "/mean_rev") ("/" ++ g ++ "/sd_rev")
                  sumL sumsqL countL sumL.length chunk sumL.length 0 _ _

/-- C7 witness: concrete instances of every universal conjunct —
missing inputs for the reverser and each of the three reducer opens, a
too-short reverser input (read failure) leaving the output at fill, a
short count dataset (read failure) aborting the reducer, a rejected
first write aborting the reverser, and the reducer's flag agreeing
between the all-rejecting and all-accepting stores. -/
theorem claim_C7_witness :
    reverse_ds_rows wok_all (0 : Nat) [] "d" 1 2 100 = ([], false) ∧
    calc_mean_sd natOpsW wok_all 0 [] "g" 5 = ([], false) ∧
    calc_mean_sd natOpsW wok_all 0 [("/g/sum_rev", [5])] "g" 5
      = ([("/g/sum_rev", [5])], false) ∧
    calc_mean_sd natOpsW wok_all 0 [("/g/sum_rev", [5]), ("/g/sumsq_rev", [6])]
      "g" 5 = ([("/g/sum_rev", [5]), ("/g/sumsq_rev", [6])], false) ∧
    reverse_ds_rows wok_all (0 : Nat) [("d", [1])] "d" 2 2 100
      = (store_write [("d", [1])] ("d" ++ "_rev") (List.replicate 1 0), false) ∧
    (calc_mean_sd natOpsW wok_all 0 mismatchFileW "g" 2).2 = false ∧
    reverse_ds_rows wok_none (0 : Nat) [("d", [1, 2])] "d" 1 2 100
      = (store_write [("d", [1, 2])] ("d" ++ "_rev") (List.replicate 2 0), false) ∧
    (calc_mean_sd natOpsW wok_none 0 statFileN "g" 2).2
      = (calc_mean_sd natOpsW wok_all 0 statFileN "g" 2).2 :=
  ⟨claim_C7_fatal_errors.1 Nat 0 [] "d" 1 2 100 (by decide) (by decide)
    (by decide),
   claim_C7_fatal_errors.2.1 Nat natOpsW 0 [] "g" 5 (by decide) (by decide),
   claim_C7_fatal_errors.2.2.1 Nat natOpsW 0 [("/g/sum_rev", [5])] "g" 5 [5]
     (by decide) (by decide) (by decide),
   claim_C7_fatal_errors.2.2.2.1 Nat natOpsW 0
     [("/g/sum_rev", [5]), ("/g/sumsq_rev", [6])] "g" 5 [5] [6]
     (by decide) (by decide) (by decide) (by decide),
   claim_C7_fatal_errors.2.2.2.2.1 Nat 0 [("d", [1])] "d" 2 2 100 [1]
     (by decide) (by decide) (by decide) (by decide) (by decide) (by decide),
   claim_C7_fatal_errors.2.2.2.2.2.1 Nat natOpsW 0 mismatchFileW "g" 2
     [5, 7] [1, 1] [3] (by decide) (by decide) (by decide) (by decide)
     (by decide) (by decide) (by decide),
   claim_C7_fatal_errors.2.2.2.2.2.2.1 Nat wok_none 0 [("d", [1, 2])] "d" 1 2
     100 [1, 2] (by decide) (by decide) (by decide) (by decide) (by decide)
     (by decide) (by decide),
   claim_C7_fatal_errors.2.2.2.2.2.2.2.1 Nat natOpsW wok_none 0 statFileN
     "g" 2⟩

/-- C4 counterexample: output values are NOT batch-size independent for
every input.  With `sum_rev = [5,7]` but `count_rev = [3]` (one element
short — `calc_mean_sd` never compares the sizes), chunk size 1 computes
and writes index 0 before panicking on the second batch, while chunk
size 2 panics on the very first read: the two runs leave different
values in the mean output. -/
theorem claim_C4_counterexample :
    dsLookup (calc_mean_sd natOpsW wok_all 0 mismatchFileW "g" 1).1
        ("/" ++ "g" ++ "/mean_rev")
      ≠ dsLookup (calc_mean_sd natOpsW wok_all 0 mismatchFileW "g" 2).1
        ("/" ++ "g" ++ "/mean_rev") := by
  decide

/-- C4 as amended: batch-size invariance holds unconditionally for
`reverse_ds_rows` (any two positive batch sizes give identical stores
and flags, on every input including failing ones), and for
`calc_mean_sd` whenever `sumsq_rev` and `count_rev` are at least as long
as `sum_rev` — the case an aborted run leaves behind partial,
batch-dependent output is exactly the undetected size mismatch. -/
theorem claim_C4_batch_invariance :
    (∀ (α : Type) (fill : α) (file : HFile α) (base : String) (x y B1 B2 : Nat),
      1 ≤ B1 → 1 ≤ B2 →
      reverse_ds_rows wok_all fill file base x y B1
        = reverse_ds_rows wok_all fill file base x y B2) ∧
    (∀ (α : Type) (ops : CellOps α) (fill : α) (file : HFile α) (g : String)
      (c1 c2 : Nat), 1 ≤ c1 → 1 ≤ c2 →
      ∀ sumL sumsqL countL : List α,
      dsLookup file ("/" ++ g ++ "/sum_rev") = some sumL →
      dsLookup file ("/" ++ g ++ "/sumsq_rev") = some sumsqL →
      dsLookup file ("/" ++ g ++ "/count_rev") = some countL →
      link_exists file ("/" ++ g ++ "/mean_rev") = false →
      link_exists file ("/" ++ g ++ "/sd_rev") = false →
      sumL.length ≤ sumsqL.length → sumL.length ≤ countL.length →
      (calc_mean_sd ops wok_all fill file g c1).2
        = (calc_mean_sd ops wok_all fill file g c2).2 ∧
      dsLookup (calc_mean_sd ops wok_all fill file g c1).1
          ("/" ++ g ++ "/mean_rev")
        = dsLookup (calc_mean_sd ops wok_all fill file g c2).1
          ("/" ++ g ++ "/mean_rev") ∧
      dsLookup (calc_mean_sd ops wok_all fill file g c1).1
          ("/" ++ g ++ "/sd_rev")
        = dsLookup (calc_mean_sd ops wok_all fill file g c2).1
          ("/" ++ g ++ "/sd_rev")) := by
  constructor
  · intro α fill file base x y B1 B2 hB1 hB2
    exact reverse_batch_invariant fill file base x y hB1 hB2
  · intro α ops fill file g c1 c2 hc1 hc2 sumL sumsqL countL hsum hsumsq hcount
      hmex hsdex hsq hcnt
    obtain ⟨a1, a2, a3, a4, a5, a6⟩ := calc_mean_sd_run ops fill file g hc1
      sumL sumsqL countL hsum hsumsq hcount hmex hsdex hsq hcnt
    obtain ⟨b1, b2, b3, b4, b5, b6⟩ := calc_mean_sd_run ops fill file g hc2
      sumL sumsqL countL hsum hsumsq hcount hmex hsdex hsq hcnt
    refine ⟨a1.trans b1.symm, ?_, ?_⟩
    · obtain ⟨mL1, hmL1⟩ : ∃ v, dsLookup (calc_mean_sd ops wok_all fill file g c1).1
          ("/" ++ g ++ "/mean_rev") = some v := by
        cases hq : dsLookup (calc_mean_sd ops wok_all fill file g c1).1
            ("/" ++ g ++ "/mean_rev") with
        | none => rw [link_exists, hq] at a3; simp at a3
        | some v => exact ⟨v, rfl⟩
      obtain ⟨mL2, hmL2⟩ : ∃ v, dsLookup (calc_mean_sd ops wok_all fill file g c2).1
          ("/" ++ g ++ "/mean_rev") = some v := by
        cases hq : dsLookup (calc_mean_sd ops wok_all fill file g c2).1
            ("/" ++ g ++ "/mean_rev") with
        | none => rw [link_exists, hq] at b3; simp at b3
        | some v => exact ⟨v, rfl⟩
      obtain ⟨hl1, hv1⟩ := a2 mL1 hmL1
      obtain ⟨hl2, hv2⟩ := b2 mL2 hmL2
      rw [hmL1, hmL2]
      congr 1
      apply list_eq_of_pointwise hl1 hl2
      intro p hp
      rw [hv1 p hp, hv2 p hp]
    · obtain ⟨sL1, hsL1⟩ : ∃ v, dsLookup (calc_mean_sd ops wok_all fill file g c1).1
          ("/" ++ g ++ "/sd_rev") = some v := by
        cases hq : dsLookup (calc_mean_sd ops wok_all fill file g c1).1
            ("/" ++ g ++ "/sd_rev") with
        | none => rw [link_exists, hq] at a5; simp at a5
        | some v => exact ⟨v, rfl⟩
      obtain ⟨sL2, hsL2⟩ : ∃ v, dsLookup (calc_mean_sd ops wok_all fill file g c2).1
          ("/" ++ g ++ "/sd_rev") = some v := by
        cases hq : dsLookup (calc_mean_sd ops wok_all fill file g c2).1
            ("/" ++ g ++ "/sd_rev") with
        | none => rw [link_exists, hq] at b5; simp at b5
        | some v => exact ⟨v, rfl⟩
      obtain ⟨hl1, hv1⟩ := a4 sL1 hsL1
      obtain ⟨hl2, hv2⟩ := b4 sL2 hsL2
      rw [hsL1, hsL2]
      congr 1
      apply list_eq_of_pointwise hl1 hl2
      intro p hp
      rw [hv1 p hp, hv2 p hp]

/-- C4 witness: reversing a 5x2 dataset with batch sizes 1, 3 and the
full half-height 3, and reducing a well-formed group with chunk sizes 1
and 2, give identical outputs. -/
theorem claim_C4_witness :
    reverse_ds_rows wok_all (0 : Nat)
        [("ds", [1, 2, 3, 4, 5, 6, 7, 8, 9, 10])] "ds" 2 5 1
      = reverse_ds_rows wok_all (0 : Nat)
        [("ds", [1, 2, 3, 4, 5, 6, 7, 8, 9, 10])] "ds" 2 5 3 ∧
    dsLookup (calc_mean_sd natOpsW wok_all 0 statFileN "g" 1).1
        ("/" ++ "g" ++ "/mean_rev")
      = dsLookup (calc_mean_sd natOpsW wok_all 0 statFileN "g" 2).1
        ("/" ++ "g" ++ "/mean_rev") :=
  ⟨claim_C4_batch_invariance.1 Nat 0 _ "ds" 2 5 1 3 (by decide) (by decide),
   (claim_C4_batch_invariance.2 Nat natOpsW 0 statFileN "g" 1 2 (by decide)
     (by decide) [5, 7] [1, 1] [3, 3] (by decide) (by decide) (by decide)
     (by decide) (by decide) (by decide) (by decide)).2.1⟩

/-- C10: `calc_mean_sd` sizes everything from `sum_rev` alone.
(1) Extending `sumsq_rev` and `count_rev` by arbitrary extra elements
changes neither output dataset nor the completion flag — their sizes are
never queried or compared.  (2) The batch loop covers exactly the
indices `[0, size(sum_rev))`: both outputs have length `size(sum_rev)`
and every index below it is written.  (3) The equal-size precondition is
never checked up front: with `count_rev` shorter than `sum_rev` the run
panics only at the failing batch read, after both outputs have already
been created. -/
theorem claim_C10_size_from_sum :
    (∀ (α : Type) (ops : CellOps α) (fill : α) (file : HFile α) (g : String)
      (chunk : Nat), 1 ≤ chunk →
      ∀ sumL sumsqL countL e1 e2 : List α,
      dsLookup file ("/" ++ g ++ "/sum_rev") = some sumL →
      dsLookup file ("/" ++ g ++ "/sumsq_rev") = some sumsqL →
      dsLookup file ("/" ++ g ++ "/count_rev") = some countL →
      link_exists file ("/" ++ g ++ "/mean_rev") = false →
      link_exists file ("/" ++ g ++ "/sd_rev") = false →
      sumL.length ≤ sumsqL.length → sumL.length ≤ countL.length →
      dsLookup (calc_mean_sd ops wok_all fill
          (store_write (store_write file ("/" ++ g ++ "/sumsq_rev") (sumsqL ++ e1))
            ("/" ++ g ++ "/count_rev") (countL ++ e2)) g chunk).1
          ("/" ++ g ++ "/mean_rev")
        = dsLookup (calc_mean_sd ops wok_all fill file g chunk).1
          ("/" ++ g ++ "/mean_rev") ∧
      dsLookup (calc_mean_sd ops wok_all fill
          (store_write (store_write file ("/" ++ g ++ "/sumsq_rev") (sumsqL ++ e1))
            ("/" ++ g ++ "/count_rev") (countL ++ e2)) g chunk).1
          ("/" ++ g ++ "/sd_rev")
        = dsLookup (calc_mean_sd ops wok_all fill file g chunk).1
          ("/" ++ g ++ "/sd_rev") ∧
      (calc_mean_sd ops wok_all fill
          (store_write (store_write file ("/" ++ g ++ "/sumsq_rev") (sumsqL ++ e1))
            ("/" ++ g ++ "/count_rev") (countL ++ e2)) g chunk).2
        = (calc_mean_sd ops wok_all fill file g chunk).2) ∧
    (∀ (α : Type) (ops : CellOps α) (fill : α) (file : HFile α) (g : String)
      (chunk : Nat), 1 ≤ chunk →
      ∀ sumL sumsqL countL : List α,
      dsLookup file ("/" ++ g ++ "/sum_rev") = some sumL →
      dsLookup file ("/" ++ g ++ "/sumsq_rev") = some sumsqL →
      dsLookup file ("/" ++ g ++ "/count_rev") = some countL →
      link_exists file ("/" ++ g ++ "/mean_rev") = false →
      link_exists file ("/" ++ g ++ "/sd_rev") = false →
      sumL.length ≤ sumsqL.length → sumL.length ≤ countL.length →
      ∀ mL sL,
      dsLookup (calc_mean_sd ops wok_all fill file g chunk).1
        ("/" ++ g ++ "/mean_rev") = some mL →
      dsLookup (calc_mean_sd ops wok_all fill file g chunk).1
        ("/" ++ g ++ "/sd_rev") = some sL →
      mL.length = sumL.length ∧ sL.length = sumL.length ∧
      (∀ i, i < sumL.length → mL[i]? = some (meanSpec ops fill sumL countL i)) ∧
      (∀ i, i < sumL.length → sL[i]? =
        some (sdSpec ops fill sumL sumsqL countL i))) ∧
    ((calc_mean_sd natOpsW wok_all 0 mismatchFileW "g" 2).2 = false ∧
     link_exists (calc_mean_sd natOpsW wok_all 0 mismatchFileW "g" 2).1
       ("/" ++ "g" ++ "/mean_rev") = true ∧
     link_exists (calc_mean_sd natOpsW wok_all 0 mismatchFileW "g" 2).1
       ("/" ++ "g" ++ "/sd_rev") = true) := by
  refine ⟨?_, ?_, by decide⟩
  · intro α ops fill file g chunk hchunk sumL sumsqL countL e1 e2 hsum hsumsq
      hcount hmex hsdex hsq hcnt
    have hsc : ("/" ++ g ++ "/sum_rev") ≠ ("/" ++ g ++ "/count_rev") :=
      path_pair_ne (by decide)
    have hsq2 : ("/" ++ g ++ "/sum_rev") ≠ ("/" ++ g ++ "/sumsq_rev") :=
      path_pair_ne (by decide)
    have hqc : ("/" ++ g ++ "/sumsq_rev") ≠ ("/" ++ g ++ "/count_rev") :=
      sumsq_ne_count g
    have hmc : ("/" ++ g ++ "/mean_rev") ≠ ("/" ++ g ++ "/count_rev") :=
      path_pair_ne (by decide)
    have hmq : ("/" ++ g ++ "/mean_rev") ≠ ("/" ++ g ++ "/sumsq_rev") :=
      path_pair_ne (by decide)
    have hdc : ("/" ++ g ++ "/sd_rev") ≠ ("/" ++ g ++ "/count_rev") :=
      path_pair_ne (by decide)
    have hdq : ("/" ++ g ++ "/sd_rev") ≠ ("/" ++ g ++ "/sumsq_rev") :=
      path_pair_ne (by decide)
    obtain ⟨a1, a2, a3, a4, a5, a6⟩ := calc_mean_sd_run ops fill
      (store_write (store_write file ("/" ++ g ++ "/sumsq_rev") (sumsqL ++ e1))
        ("/" ++ g ++ "/count_rev") (countL ++ e2)) g hchunk
      sumL (sumsqL ++ e1) (countL ++ e2)
      (by rw [dsLookup_store_write_ne _ hsc, dsLookup_store_write_ne _ hsq2, hsum])
      (by rw [dsLookup_store_write_ne _ hqc, dsLookup_store_write_self])
      (by rw [dsLookup_store_write_self])
      (by rw [link_exists, dsLookup_store_write_ne _ hmc,
        dsLookup_store_write_ne _ hmq]
          exact hmex)
      (by rw [link_exists, dsLookup_store_write_ne _ hdc,
        dsLookup_store_write_ne _ hdq]
          exact hsdex)
      (by simp; omega) (by simp; omega)
    obtain ⟨b1, b2, b3, b4, b5, b6⟩ := calc_mean_sd_run ops fill file g hchunk
      sumL sumsqL countL hsum hsumsq hcount hmex hsdex hsq hcnt
    have hmean1 : ∃ v, dsLookup (calc_mean_sd ops wok_all fill
        (store_write (store_write file ("/" ++ g ++ "/sumsq_rev") (sumsqL ++ e1))
          ("/" ++ g ++ "/count_rev") (countL ++ e2)) g chunk).1
        ("/" ++ g ++ "/mean_rev") = some v := by
      cases hq : dsLookup (calc_mean_sd ops wok_all fill
          (store_write (store_write file ("/" ++ g ++ "/sumsq_rev") (sumsqL ++ e1))
            ("/" ++ g ++ "/count_rev") (countL ++ e2)) g chunk).1
          ("/" ++ g ++ "/mean_rev") with
      | none => rw [link_exists, hq] at a3; simp at a3
      | some v => exact ⟨v, rfl⟩
    have hmean2 : ∃ v, dsLookup (calc_mean_sd ops wok_all fill file g chunk).1
        ("/" ++ g ++ "/mean_rev") = some v := by
      cases hq : dsLookup (calc_mean_sd ops wok_all fill file g chunk).1
          ("/" ++ g ++ "/mean_rev") with
      | none => rw [link_exists, hq] at b3; simp at b3
      | some v => exact ⟨v, rfl⟩
    have hsd1 : ∃ v, dsLookup (calc_mean_sd ops wok_all fill
        (store_write (store_write file ("/" ++ g ++ "/sumsq_rev") (sumsqL ++ e1))
          ("/" ++ g ++ "/count_rev") (countL ++ e2)) g chunk).1
        ("/" ++ g ++ "/sd_rev") = some v := by
      cases hq : dsLookup (calc_mean_sd ops wok_all fill
          (store_write (store_write file ("/" ++ g ++ "/sumsq_rev") (sumsqL ++ e1))
            ("/" ++ g ++ "/count_rev") (countL ++ e2)) g chunk).1
          ("/" ++ g ++ "/sd_rev") with
      | none => rw [link_exists, hq] at a5; simp at a5
      | some v => exact ⟨v, rfl⟩
    have hsd2 : ∃ v, dsLookup (calc_mean_sd ops wok_all fill file g chunk).1
        ("/" ++ g ++ "/sd_rev") = some v := by
      cases hq : dsLookup (calc_mean_sd ops wok_all fill file g chunk).1
          ("/" ++ g ++ "/sd_rev") with
      | none => rw [link_exists, hq] at b5; simp at b5
      | some v => exact ⟨v, rfl⟩
    obtain ⟨mL1, hmL1⟩ := hmean1
    obtain ⟨mL2, hmL2⟩ := hmean2
    obtain ⟨sL1, hsL1⟩ := hsd1
    obtain ⟨sL2, hsL2⟩ := hsd2
    obtain ⟨hml1, hmv1⟩ := a2 mL1 hmL1
    obtain ⟨hml2, hmv2⟩ := b2 mL2 hmL2
    obtain ⟨hsl1, hsv1⟩ := a4 sL1 hsL1
    obtain ⟨hsl2, hsv2⟩ := b4 sL2 hsL2
    refine ⟨?_, ?_, a1.trans b1.symm⟩
    · rw [hmL1, hmL2]
      congr 1
      apply list_eq_of_pointwise hml1 hml2
      intro p hp
      rw [hmv1 p hp, hmv2 p hp]
      unfold meanSpec
      rw [List.getElem?_append_left (show p < countL.length by omega)]
    · rw [hsL1, hsL2]
      congr 1
      apply list_eq_of_pointwise hsl1 hsl2
      intro p hp
      rw [hsv1 p hp, hsv2 p hp]
      unfold sdSpec
      rw [List.getElem?_append_left (show p < countL.length by omega),
        List.getElem?_append_left (show p < sumsqL.length by omega)]
  · intro α ops fill file g chunk hchunk sumL sumsqL countL hsum hsumsq hcount
      hmex hsdex hsq hcnt mL sL hmL hsL
    obtain ⟨g1, g2, g3, g4, g5, g6⟩ := calc_mean_sd_run ops fill file g hchunk
      sumL sumsqL countL hsum hsumsq hcount hmex hsdex hsq hcnt
    obtain ⟨hml, hmv⟩ := g2 mL hmL
    obtain ⟨hsl, hsv⟩ := g4 sL hsL
    exact ⟨hml, hsl, hmv, hsv⟩

/-- C10 witness: concrete run of the extension-invariance and coverage
parts on a two-cell group. -/
theorem claim_C10_witness :
    (dsLookup (calc_mean_sd natOpsW wok_all 0
        (store_write (store_write statFileN ("/" ++ "g" ++ "/sumsq_rev")
          ([1, 1] ++ [9])) ("/" ++ "g" ++ "/count_rev") ([3, 3] ++ [8, 8]))
        "g" 2).1 ("/" ++ "g" ++ "/mean_rev")
      = dsLookup (calc_mean_sd natOpsW wok_all 0 statFileN "g" 2).1
        ("/" ++ "g" ++ "/mean_rev")) ∧
    (∀ mL sL,
      dsLookup (calc_mean_sd natOpsW wok_all 0 statFileN "g" 2).1
        ("/" ++ "g" ++ "/mean_rev") = some mL →
      dsLookup (calc_mean_sd natOpsW wok_all 0 statFileN "g" 2).1
        ("/" ++ "g" ++ "/sd_rev") = some sL →
      mL.length = 2 ∧ sL.length = 2) :=
  ⟨(claim_C10_size_from_sum.1 Nat natOpsW 0 statFileN "g" 2 (by decide)
      [5, 7] [1, 1] [3, 3] [9] [8, 8] (by decide) (by decide) (by decide)
      (by decide) (by decide) (by decide) (by decide)).1,
   fun mL sL hmL hsL =>
     ⟨((claim_C10_size_from_sum.2.1 Nat natOpsW 0 statFileN "g" 2 (by decide)
        [5, 7] [1, 1] [3, 3] (by decide) (by decide) (by decide) (by decide)
        (by decide) (by decide) (by decide) mL sL hmL hsL).1 : mL.length = 2),
      ((claim_C10_size_from_sum.2.1 Nat natOpsW 0 statFileN "g" 2 (by decide)
        [5, 7] [1, 1] [3, 3] (by decide) (by decide) (by decide) (by decide)
        (by decide) (by decide) (by decide) mL sL hmL hsL).2.1 : sL.length = 2)⟩⟩
